import Mathlib

/-!
# A shallow embedding of the `GraphIndex` store (`src/state/graph_index.py`)

The SQLite-backed store is modeled as four lists of rows (entities, aliases,
relationships, claims), mirroring the four tables created by `_initialize`.
Each public method of the `GraphIndex` class becomes a pure function on
`Store`; methods that can raise return `Except Err _`, where `Err` models the
closed error taxonomy.  A raised error rolls the transaction back, so an
erroring call leaves the caller's store unchanged, which the `Except` encoding
captures directly.

Modeling conventions, all matching observable SQLite behavior:

* `INTEGER PRIMARY KEY` assignment: SQLite assigns one more than the largest
  rowid currently in the table (`freshId`).
* `SELECT` without `ORDER BY` returns rows in rowid (= insertion) order; the
  row lists keep that order, and deletions are list filters.
* `ORDER BY alias` uses the BINARY collation, i.e. byte-wise UTF-8 order,
  which coincides with code-point order; `strLe` implements it.
* `UNIQUE` constraints and `ON CONFLICT` clauses are modeled by explicit
  `find?` lookups; the `FOREIGN KEY` check that fires when `merge_alias`
  deletes an entity row still referenced from `aliases` is modeled by the
  `integrityError` branch.
* Wall-clock timestamps (`CURRENT_TIMESTAMP`, `claim_date` parsing) are
  outside the model: `upsert_claim` takes the timestamp string to store in
  `date_added` as an explicit `now` argument, and the unread decorative
  `date_added` columns of the other tables, as well as the unread
  `claim_date` and `tags` columns, are omitted.
* `REAL` strengths are modeled as `Rat`; the code only stores and copies
  strength values, never computes with them, so any dense ordered field is a
  faithful carrier.
-/

namespace GraphIndex

/-- A row of the `entities` table. -/
structure Entity where
  id : Nat
  name : String
  entity_type : Option String
deriving DecidableEq

/-- A row of the `aliases` table. -/
structure AliasRow where
  id : Nat
  entity_id : Nat
  alias_name : String
deriving DecidableEq

/-- A row of the `relationships` table. -/
structure RelRow where
  id : Nat
  source_id : Nat
  target_id : Nat
  strength : Rat
  directed : Bool
deriving DecidableEq

/-- A row of the `claims` table. -/
structure ClaimRow where
  id : Nat
  entity_id : Option Nat
  relationship_id : Option Nat
  content : String
  source : Option String
  date_added : String
deriving DecidableEq

/-- The whole database file. -/
structure Store where
  entities : List Entity
  aliases : List AliasRow
  relationships : List RelRow
  claims : List ClaimRow
deriving DecidableEq

def Store.empty : Store := ⟨[], [], [], []⟩

/-- Modelled from the spec: the closed error taxonomy of `_schemas` (§7 of the
spec); the module itself is not under `src/`.  Each constructor carries the
names its message references; `entityNotFound` carries the optional hint
naming the real canonical. `integrityError` stands for `sqlite3.IntegrityError`
raised by an enforced foreign-key constraint. -/
inductive Err where
  | entityNotFound (name : String) (hint : Option String)
  | aliasConflict (a : String) (owner : String) (b : String)
  | relationshipCollision (a : String) (b : String)
  | relationshipMergeConflict (a : String) (b : String)
  | deletionConflict (name : String) (table : String)
  | valueError (msg : String)
  | integrityError
deriving DecidableEq

/-- Modelled from the spec: `str(e)` on an error object, used only as the
opaque reason string recorded by `merge_all_aliases`. -/
def errMessage : Err → String
  | .entityNotFound n _ => "Entity '" ++ n ++ "' not found in graph."
  | .aliasConflict a o b => "Alias conflict: " ++ a ++ " " ++ o ++ " " ++ b
  | .relationshipCollision a b => "Relationship collision: " ++ a ++ " " ++ b
  | .relationshipMergeConflict a b => "Merge conflict: " ++ a ++ " " ++ b
  | .deletionConflict n t => "Deletion conflict: " ++ n ++ " " ++ t
  | .valueError m => m
  | .integrityError => "FOREIGN KEY constraint failed"

/-- Modelled from the spec: the `RelationshipRecord` value passed to
`upsert_claim`; the fields are the ones `graph_index.py` reads. -/
structure RelationshipRecord where
  source_name : String
  target_name : String
  strength : Rat
  directed : Bool
deriving DecidableEq

/-- SQLite rowid assignment for `INTEGER PRIMARY KEY`: one more than the
largest id currently in use. -/
def freshId (ids : List Nat) : Nat := ids.foldr max 0 + 1

/-- `SELECT * FROM entities WHERE id = ?` (first row). -/
def findEntityById (s : Store) (i : Nat) : Option Entity :=
  s.entities.find? (fun e => e.id == i)

/-- `SELECT * FROM entities WHERE name = ?` (first row; `name` is UNIQUE). -/
def findEntityByName (s : Store) (n : String) : Option Entity :=
  s.entities.find? (fun e => e.name == n)

/-- `SELECT * FROM aliases WHERE alias = ?` (first row; `alias` is UNIQUE). -/
def findAliasRow (s : Store) (a : String) : Option AliasRow :=
  s.aliases.find? (fun r => r.alias_name == a)

/-- `resolve_alias`: alias lookup first, then entity-name lookup, else the
input verbatim.  The inner `none` case (an alias row whose entity is gone)
cannot occur while foreign keys hold; the Python would die on `entity_row[0]`
there, and the model returns the input. -/
def resolve_alias (s : Store) (name : String) : String :=
  match findAliasRow s name with
  | some r =>
    match findEntityById s r.entity_id with
    | some e => e.name
    | none => name
  | none =>
    match findEntityByName s name with
    | some e => e.name
    | none => name

/-- The id set `_expand_ids` builds for the entity row `eid`: the row itself
plus every entity whose name is registered as one of its aliases, in alias
table order. -/
def familyIds (s : Store) (eid : Nat) : List Nat :=
  eid :: (s.aliases.filter (fun a => a.entity_id == eid)).filterMap
    (fun a => (findEntityByName s a.alias_name).map (fun e => e.id))

/-- `_expand_ids`: resolve, require the canonical entity row, expand. -/
def expand_ids (s : Store) (name : String) : Except Err (List Nat) :=
  let canonical := resolve_alias s name
  match findEntityByName s canonical with
  | none => .error (.entityNotFound canonical none)
  | some row => .ok (familyIds s row.id)

/-- `_relationship_ids_alias_expanded`: ids of relationship rows between the
two alias-expanded families, honoring the directed flag.  A missing canonical
on either side yields `[]` (the Python catches `EntityNotFoundError`). -/
def relationship_ids_alias_expanded (s : Store) (src_name tgt_name : String)
    (directed : Bool) : List Nat :=
  match expand_ids s (resolve_alias s src_name), expand_ids s (resolve_alias s tgt_name) with
  | .ok src_ids, .ok tgt_ids =>
    if directed then
      (s.relationships.filter (fun r =>
        r.directed == true && src_ids.contains r.source_id && tgt_ids.contains r.target_id)).map
        (fun r => r.id)
    else
      (s.relationships.filter (fun r =>
        r.directed == false &&
          ((src_ids.contains r.source_id && tgt_ids.contains r.target_id) ||
           (tgt_ids.contains r.source_id && src_ids.contains r.target_id)))).map
        (fun r => r.id)
  | _, _ => []

/-- `_has_relationship_between`: any relationship row between the two
alias-expanded families, in either orientation. -/
def has_relationship_between (s : Store) (n1 n2 : String) : Bool :=
  match findEntityByName s (resolve_alias s n1) with
  | none => false
  | some e1 =>
    match findEntityByName s (resolve_alias s n2) with
    | none => false
    | some e2 =>
      let ids1 := familyIds s e1.id
      let ids2 := familyIds s e2.id
      s.relationships.any (fun r =>
        (ids1.contains r.source_id && ids2.contains r.target_id) ||
        (ids2.contains r.source_id && ids1.contains r.target_id))

/-- `_normalize_pair`: for undirected edges store the smaller id first. -/
def normalize_pair (source_id target_id : Nat) (directed : Bool) :
    Nat × Nat × Bool :=
  if !directed && decide (source_id > target_id) then (target_id, source_id, false)
  else (source_id, target_id, directed)

/-- `upsert_entity`: insert, or on name conflict update `entity_type` only
when supplied (`COALESCE(excluded.entity_type, entities.entity_type)`);
returns the row id. -/
def upsert_entity (s : Store) (name : String) (entity_type : Option String) :
    Nat × Store :=
  match findEntityByName s name with
  | some e =>
    (e.id, { s with entities := s.entities.map (fun x =>
        if x.name == name then
          { x with entity_type := match entity_type with
                                  | some t => some t
                                  | none => x.entity_type }
        else x) })
  | none =>
    let e : Entity := ⟨freshId (s.entities.map (fun x => x.id)), name, entity_type⟩
    (e.id, { s with entities := s.entities ++ [e] })

/-- `upsert_relationship`: resolve both endpoints, reject self-loops,
ensure both entities, normalize undirected order, then insert or update the
strength on the `(source_id, target_id, directed)` key. -/
def upsert_relationship (s : Store) (source_name target_name : String)
    (strength : Rat) (directed : Bool) : Except Err (Nat × Store) :=
  let source_canonical := resolve_alias s source_name
  let target_canonical := resolve_alias s target_name
  if source_canonical == target_canonical then
    .error (.relationshipCollision source_name target_name)
  else
    let p1 := upsert_entity s source_canonical none
    let p2 := upsert_entity p1.2 target_canonical none
    let t := normalize_pair p1.1 p2.1 directed
    match p2.2.relationships.find? (fun r =>
        r.source_id == t.1 && r.target_id == t.2.1 && r.directed == t.2.2) with
    | some r =>
      .ok (r.id, { p2.2 with relationships := p2.2.relationships.map (fun q =>
          if q.id == r.id then { q with strength := strength } else q) })
    | none =>
      let r : RelRow := ⟨freshId (p2.2.relationships.map (fun q => q.id)),
                         t.1, t.2.1, strength, t.2.2⟩
      .ok (r.id, { p2.2 with relationships := p2.2.relationships ++ [r] })

/-- The name shown in `upsert_alias`'s already-mapped-elsewhere message
(`SELECT name FROM entities WHERE id = ?` then `fetchone()[0]`). -/
def entityNameOf (s : Store) (i : Nat) : String :=
  match findEntityById s i with
  | some e => e.name
  | none => ""

/-- `upsert_alias`: guard against an existing relationship, self-alias,
transitive alias, and an alias already bound to another entity; then ensure
the entity and insert the mapping idempotently
(`ON CONFLICT(alias) DO NOTHING`), returning the mapping row id. -/
def upsert_alias (s : Store) (entity_name al : String) : Except Err (Nat × Store) :=
  if has_relationship_between s entity_name al then
    .error (.relationshipCollision entity_name al)
  else if entity_name == al then
    .error (.aliasConflict entity_name al al)
  else
    let canonical := resolve_alias s entity_name
    if entity_name != canonical then
      .error (.aliasConflict entity_name canonical al)
    else
      let p := upsert_entity s entity_name none
      match findAliasRow p.2 al with
      | some ex =>
        if ex.entity_id != p.1 then
          .error (.aliasConflict al (entityNameOf p.2 ex.entity_id) entity_name)
        else .ok (ex.id, p.2)
      | none =>
        let row : AliasRow := ⟨freshId (p.2.aliases.map (fun a => a.id)), p.1, al⟩
        .ok (row.id, { p.2 with aliases := p.2.aliases ++ [row] })

/-- Python truthiness of the optional `entity_name` argument. -/
def truthyName : Option String → Bool
  | some n => n != ""
  | none => false

/-- `upsert_claim`: exactly one owner (by Python truthiness) must be given;
upsert the owner, then append the claim row.  `now` is the stored
`CURRENT_TIMESTAMP` string. -/
def upsert_claim (s : Store) (content : String) (source : Option String)
    (entity_name : Option String) (relationship : Option RelationshipRecord)
    (now : String) : Except Err (Nat × Store) :=
  if truthyName entity_name && relationship.isSome then
    .error (.valueError "Claim cannot be associated with both entity and relationship")
  else if !truthyName entity_name && relationship.isNone then
    .error (.valueError "Claim must be associated with either entity or relationship")
  else
    let owners : Except Err (Option Nat × Option Nat × Store) :=
      if truthyName entity_name then
        let p := upsert_entity s (entity_name.getD "") none
        .ok (some p.1, none, p.2)
      else
        match relationship with
        | some rel =>
          match upsert_relationship s rel.source_name rel.target_name
              rel.strength rel.directed with
          | .error e => .error e
          | .ok p => .ok (none, some p.1, p.2)
        | none => .ok (none, none, s)
    match owners with
    | .error e => .error e
    | .ok (eid, rid, s1) =>
      let c : ClaimRow := ⟨freshId (s1.claims.map (fun x => x.id)),
                           eid, rid, content, source, now⟩
      .ok (c.id, { s1 with claims := s1.claims ++ [c] })

/-- `drop`: truncate all four tables. -/
def drop (_s : Store) : Store := Store.empty

/-- `load_aliases`: alias strings of the canonical, in rowid order (the query
has no `ORDER BY`); missing canonical raises `EntityNotFoundError`. -/
def load_aliases (s : Store) (name : String) : Except Err (List String) :=
  let canonical := resolve_alias s name
  match findEntityByName s canonical with
  | none => .error (.entityNotFound canonical none)
  | some row =>
    .ok ((s.aliases.filter (fun a => a.entity_id == row.id)).map (fun a => a.alias_name))

/-- SQLite BINARY collation: byte-wise UTF-8 order, equivalently code-point
lexicographic order. -/
def charListLe : List Char → List Char → Bool
  | [], _ => true
  | _ :: _, [] => false
  | a :: as, b :: bs =>
    if a.val < b.val then true
    else if b.val < a.val then false
    else charListLe as bs

def strLe (a b : String) : Bool := charListLe a.data b.data

def insertSorted (x : String) : List String → List String
  | [] => [x]
  | y :: ys => if strLe x y then x :: y :: ys else y :: insertSorted x ys

/-- The effect of `ORDER BY alias` on a result column. -/
def sortStrs : List String → List String
  | [] => []
  | x :: xs => insertSorted x (sortStrs xs)

/-- `list_all_aliases`: same rows as `load_aliases`, but `ORDER BY alias`. -/
def list_all_aliases (s : Store) (entity_name : String) : Except Err (List String) :=
  let canonical := resolve_alias s entity_name
  match findEntityByName s canonical with
  | none => .error (.entityNotFound canonical none)
  | some row =>
    .ok (sortStrs ((s.aliases.filter (fun a => a.entity_id == row.id)).map (fun a => a.alias_name)))

/-- `entity_exists`: exact name lookup, no alias resolution. -/
def entity_exists (s : Store) (name : String) : Bool :=
  (findEntityByName s name).isSome

/-- One iteration of `merge_alias`'s relationship-migration loop, folded over
the rows that were incident on the alias entity when the loop started.  The
current relationship and claim tables are threaded through; an endpoint
collapse aborts the whole transaction. -/
def mergeRels (canonical_id alias_id : Nat) (cn an : String) :
    List RelRow → List RelRow × List ClaimRow → Except Err (List RelRow × List ClaimRow)
  | [], acc => .ok acc
  | q :: qs, (rels, claims) =>
    let ns := if q.source_id == alias_id then canonical_id else q.source_id
    let nt := if q.target_id == alias_id then canonical_id else q.target_id
    if ns == nt then .error (.relationshipMergeConflict cn an)
    else
      let t := normalize_pair ns nt q.directed
      match rels.find? (fun r =>
          r.source_id == t.1 && r.target_id == t.2.1 && r.directed == t.2.2) with
      | some ex =>
        mergeRels canonical_id alias_id cn an qs
          (rels.filter (fun r => r.id != q.id),
           claims.map (fun c =>
             if c.relationship_id == some q.id then
               { c with relationship_id := some ex.id }
             else c))
      | none =>
        mergeRels canonical_id alias_id cn an qs
          (rels.map (fun r =>
             if r.id == q.id then
               { r with source_id := t.1, target_id := t.2.1, directed := t.2.2 }
             else r),
           claims)

/-- `merge_alias`: physically collapse the alias entity into its canonical.
The final `DELETE FROM entities` runs with foreign keys on, so an alias
mapping still pointing at the alias entity (an alias chain) makes SQLite
raise `IntegrityError` and the transaction roll back. -/
def merge_alias (s : Store) (canonical_name alias_name : String) : Except Err Store :=
  match findEntityByName s canonical_name with
  | none =>
    let is_an_alias_of := resolve_alias s canonical_name
    if is_an_alias_of != "" && is_an_alias_of != canonical_name then
      .error (.entityNotFound canonical_name (some is_an_alias_of))
    else
      .error (.entityNotFound canonical_name none)
  | some canonical_row =>
    match findAliasRow s alias_name with
    | none => .error (.valueError ("'" ++ alias_name ++ "' is not an alias"))
    | some alias_mapping =>
      if alias_mapping.entity_id != canonical_row.id then
        .error (.valueError ("'" ++ alias_name ++ "' is not an alias of '" ++ canonical_name ++ "'"))
      else
        match findEntityByName s alias_name with
        | none => .ok s
        | some alias_row =>
          let alias_relationships := s.relationships.filter (fun r =>
            r.source_id == alias_row.id || r.target_id == alias_row.id)
          match mergeRels canonical_row.id alias_row.id canonical_name alias_name
              alias_relationships (s.relationships, s.claims) with
          | .error e => .error e
          | .ok (rels, claims) =>
            let claims2 := claims.map (fun c =>
              if c.entity_id == some alias_row.id then
                { c with entity_id := some canonical_row.id }
              else c)
            if s.aliases.any (fun a => a.entity_id == alias_row.id) then
              .error .integrityError
            else
              .ok { s with
                relationships := rels,
                claims := claims2,
                entities := s.entities.filter (fun e => e.id != alias_row.id) }

/-- The loop body of `merge_all_aliases` over the alias list. -/
def mergeAllGo (cn strat : String) (st : Store) (merged : List String)
    (skipped : List (String × String)) :
    List String → Except Err ((List String × List (String × String)) × Store)
  | [] => .ok ((merged, skipped), st)
  | a :: rest =>
    match merge_alias st cn a with
    | .ok st' => mergeAllGo cn strat st' (merged ++ [a]) skipped rest
    | .error e =>
      if strat == "error_on_conflict" then .error e
      else if strat == "skip_on_conflict" then
        mergeAllGo cn strat st merged (skipped ++ [(a, errMessage e)]) rest
      else .error (.valueError ("Unknown strategy: " ++ strat))

/-- `merge_all_aliases`: iterate `merge_alias` over the canonical's aliases,
honoring the error strategy; returns the merged and skipped lists. -/
def merge_all_aliases (s : Store) (canonical_name strategy : String) :
    Except Err ((List String × List (String × String)) × Store) :=
  match load_aliases s canonical_name with
  | .error e => .error e
  | .ok aliases => mergeAllGo canonical_name strategy s [] [] aliases

/-- Sequentially merging a list of aliases, `none` as soon as one fails;
used to state when every individual `merge_alias` call succeeds. -/
def mergeSeq (cn : String) (st : Store) : List String → Option Store
  | [] => some st
  | a :: rest =>
    match merge_alias st cn a with
    | .ok st' => mergeSeq cn st' rest
    | .error _ => none

/-- `delete_entity`: refuse aliases, require the canonical, guard when
`cascade` is off, then delete the relationships incident on the canonical id
(with their claims), the canonical's claims, its alias mappings, and the
entity row itself. -/
def delete_entity (s : Store) (name : String) (cascade : Bool) : Except Err Store :=
  let canonical := resolve_alias s name
  if name != canonical then .error (.deletionConflict name "entities")
  else
    match findEntityByName s canonical with
    | none => .error (.entityNotFound canonical none)
    | some row =>
      match expand_ids s canonical with
      | .error _ => .error (.entityNotFound canonical none)
      | .ok expanded_ids =>
        let rels_guard := s.relationships.any (fun r =>
          expanded_ids.contains r.source_id || expanded_ids.contains r.target_id)
        let claims_guard := s.claims.any (fun c => c.entity_id == some row.id)
        if !cascade && (rels_guard || claims_guard) then
          .error (.deletionConflict canonical "entities")
        else
          let incidentIds := (s.relationships.filter (fun r =>
            r.source_id == row.id || r.target_id == row.id)).map (fun r => r.id)
          let claims1 := s.claims.filter (fun c =>
            match c.relationship_id with
            | some rid => !incidentIds.contains rid
            | none => true)
          .ok { entities := s.entities.filter (fun e => e.id != row.id),
                aliases := s.aliases.filter (fun a => a.entity_id != row.id),
                relationships := s.relationships.filter (fun r => !incidentIds.contains r.id),
                claims := claims1.filter (fun c => c.entity_id != some row.id) }

/-- The relationship ids `delete_relationship` collects for the requested
directedness (the §4.4 matching rules). -/
def deleteMatchIds (s : Store) (source_canonical target_canonical : String)
    (directed : Option Bool) : List Nat :=
  match directed with
  | none =>
    relationship_ids_alias_expanded s source_canonical target_canonical false
      ++ relationship_ids_alias_expanded s source_canonical target_canonical true
      ++ relationship_ids_alias_expanded s target_canonical source_canonical true
  | some true => relationship_ids_alias_expanded s source_canonical target_canonical true
  | some false => relationship_ids_alias_expanded s source_canonical target_canonical false

/-- `delete_relationship`: reject self-collisions, collect matching rows, and
either no-op on an empty match, guard claims when `cascade` is off, or delete
the matched relationships' claims and then the relationships. -/
def delete_relationship (s : Store) (source target : String)
    (directed : Option Bool) (cascade : Bool) : Except Err Store :=
  let source_canonical := resolve_alias s source
  let target_canonical := resolve_alias s target
  if source_canonical == target_canonical then
    .error (.relationshipCollision source target)
  else
    let rel_ids := deleteMatchIds s source_canonical target_canonical directed
    if rel_ids.isEmpty then .ok s
    else if !cascade && s.claims.any (fun c =>
        match c.relationship_id with
        | some rid => rel_ids.contains rid
        | none => false) then
      .error (.deletionConflict source_canonical "relationships")
    else
      .ok { s with
        claims := s.claims.filter (fun c =>
          match c.relationship_id with
          | some rid => !rel_ids.contains rid
          | none => true),
        relationships := s.relationships.filter (fun r => !rel_ids.contains r.id) }

/-- `delete_alias`: remove one alias mapping row, leaving any entity row that
shares the alias string untouched. -/
def delete_alias (s : Store) (entity_name al : String) : Except Err Store :=
  let canonical := resolve_alias s entity_name
  if canonical != entity_name then .error (.deletionConflict al "aliases")
  else
    match findEntityByName s entity_name with
    | none => .error (.entityNotFound entity_name none)
    | some ent =>
      match findAliasRow s al with
      | none => .error (.aliasConflict al "<unmapped>" entity_name)
      | some mapping =>
        if mapping.entity_id != ent.id then
          .error (.aliasConflict al (entityNameOf s mapping.entity_id) entity_name)
        else
          .ok { s with aliases := s.aliases.filter (fun a => a.id != mapping.id) }

/-- The `mode` literal of `delete_claim`. -/
inductive DeleteMode where
  | exact | by_entity | by_relationship | by_source | by_date | by_content
deriving DecidableEq

/-- Python truthiness of an optional pair argument (a 2-tuple is truthy). -/
def truthyPair {α β : Type} : Option (α × β) → Bool
  | some _ => true
  | none => false

/-- The relationship ids the `by_relationship` filter (and the relationship
filter of `exact`) collects. -/
def claimRelIds (s : Store) (src tgt : String) (directed : Option Bool) : List Nat :=
  (if directed == none || directed == some false then
    relationship_ids_alias_expanded s src tgt false
  else []) ++
  (if directed == some true then
    relationship_ids_alias_expanded s src tgt true
  else [])

/-- `delete_claim`: filter-based deletion.  Every branch either no-ops or
filters the claims table; the entity filter is conservative (canonical only),
the relationship filter alias-expanded, `by_date` a closed `BETWEEN` on
`date_added`. -/
def delete_claim (s : Store) (content entity_name : Option String)
    (relationship : Option (String × String)) (source : Option String)
    (date_range : Option (String × String)) (directed : Option Bool)
    (mode : DeleteMode) : Except Err Store :=
  if !(truthyName content || truthyName entity_name || truthyPair relationship
      || truthyName source || truthyPair date_range) then
    .error (.valueError "Must provide at least one filter criterion")
  else if mode == .by_entity && truthyName entity_name then
    match findEntityByName s (resolve_alias s (entity_name.getD "")) with
    | none => .ok s
    | some row =>
      .ok { s with claims := s.claims.filter (fun c => !(c.entity_id == some row.id)) }
  else if mode == .by_relationship && truthyPair relationship then
    let pr := relationship.getD ("", "")
    let rel_ids := claimRelIds s pr.1 pr.2 directed
    if rel_ids.isEmpty then .ok s
    else
      .ok { s with claims := s.claims.filter (fun c =>
        match c.relationship_id with
        | some rid => !rel_ids.contains rid
        | none => true) }
  else if mode == .by_source && truthyName source then
    .ok { s with claims := s.claims.filter (fun c => !(c.source == source)) }
  else if mode == .by_date && truthyPair date_range then
    let dr := date_range.getD ("", "")
    .ok { s with claims := s.claims.filter (fun c =>
      !(strLe dr.1 c.date_added && strLe c.date_added dr.2)) }
  else if mode == .by_content && truthyName content then
    .ok { s with claims := s.claims.filter (fun c => !(some c.content == content)) }
  else if mode == .exact then
    -- the entity clause (conservative): early no-op when the canonical is missing
    let entStep : Option (Option Nat) :=
      if truthyName entity_name then
        match findEntityByName s (resolve_alias s (entity_name.getD "")) with
        | none => none
        | some row => some (some row.id)
      else some none
    match entStep with
    | none => .ok s
    | some entId =>
      -- the relationship clause (alias-expanded): early no-op on an empty match
      let relStep : Option (Option (List Nat)) :=
        match relationship with
        | some pr =>
          let rel_ids := claimRelIds s pr.1 pr.2 directed
          if rel_ids.isEmpty then none else some (some rel_ids)
        | none => some none
      match relStep with
      | none => .ok s
      | some relIds =>
        if !(truthyName entity_name || truthyPair relationship || truthyName content
            || truthyName source || truthyPair date_range) then .ok s
        else
          .ok { s with claims := s.claims.filter (fun c => !(
            (match entId with
             | some i => c.entity_id == some i
             | none => true) &&
            (match relIds with
             | some l =>
               match c.relationship_id with
               | some rid => l.contains rid
               | none => false
             | none => true) &&
            (if truthyName content then some c.content == content else true) &&
            (if truthyName source then c.source == source else true) &&
            (match date_range with
             | some dr => strLe dr.1 c.date_added && strLe c.date_added dr.2
             | none => true)))}
  else .error (.valueError "Unsupported mode")

/-! ## Well-formedness invariants

`Inv` is the slice of database well-formedness needed for the reachability
invariants: unique entity ids and names (the `id` primary key and the UNIQUE
`name` column) plus the undirected-normalization property P3.  `WF` adds the
relationship primary key and `UNIQUE(source_id, target_id, directed)`
constraints and the `aliases.entity_id` foreign key, for theorems stated over
any store satisfying the schema constraints. -/

structure Inv (s : Store) : Prop where
  entIds : (s.entities.map (fun e => e.id)).Nodup
  entNames : (s.entities.map (fun e => e.name)).Nodup
  relIds : (s.relationships.map (fun r => r.id)).Nodup
  relKeys : (s.relationships.map (fun r => (r.source_id, r.target_id, r.directed))).Nodup
  aliasRefs : ∀ a ∈ s.aliases, ∃ e ∈ s.entities, e.id = a.entity_id
  undirNorm : ∀ r ∈ s.relationships, r.directed = false → r.source_id < r.target_id

/-- Every alias row references a live entity (the `aliases.entity_id`
foreign key). -/
abbrev AliasRefsOk (s : Store) : Prop :=
  ∀ a ∈ s.aliases, ∃ e ∈ s.entities, e.id = a.entity_id

abbrev WF (s : Store) : Prop :=
  (s.entities.map (fun e => e.id)).Nodup ∧
  (s.entities.map (fun e => e.name)).Nodup ∧
  (s.relationships.map (fun r => r.id)).Nodup ∧
  (s.relationships.map (fun r => (r.source_id, r.target_id, r.directed))).Nodup ∧
  AliasRefsOk s

/-- All states reachable from the empty database through the public mutating
operations of `GraphIndex`.  Failed calls roll back and stay at the same
state, so only successful results appear. -/
inductive Reachable : Store → Prop where
  | init : Reachable Store.empty
  | step_upsert_entity {s : Store} (n : String) (ty : Option String) :
      Reachable s → Reachable (upsert_entity s n ty).2
  | step_upsert_alias {s s' : Store} {i : Nat} (en al : String) :
      Reachable s → upsert_alias s en al = .ok (i, s') → Reachable s'
  | step_upsert_relationship {s s' : Store} {i : Nat} (a b : String) (w : Rat) (d : Bool) :
      Reachable s → upsert_relationship s a b w d = .ok (i, s') → Reachable s'
  | step_upsert_claim {s s' : Store} {i : Nat} (content : String)
      (source entity_name : Option String) (rel : Option RelationshipRecord) (now : String) :
      Reachable s → upsert_claim s content source entity_name rel now = .ok (i, s') →
      Reachable s'
  | step_merge_alias {s s' : Store} (cn an : String) :
      Reachable s → merge_alias s cn an = .ok s' → Reachable s'
  | step_merge_all {s s' : Store} {res : List String × List (String × String)}
      (cn strat : String) :
      Reachable s → merge_all_aliases s cn strat = .ok (res, s') → Reachable s'
  | step_delete_entity {s s' : Store} (n : String) (c : Bool) :
      Reachable s → delete_entity s n c = .ok s' → Reachable s'
  | step_delete_relationship {s s' : Store} (a b : String) (dOpt : Option Bool) (c : Bool) :
      Reachable s → delete_relationship s a b dOpt c = .ok s' → Reachable s'
  | step_delete_alias {s s' : Store} (en al : String) :
      Reachable s → delete_alias s en al = .ok s' → Reachable s'
  | step_delete_claim {s s' : Store} (content entity_name : Option String)
      (rel : Option (String × String)) (source : Option String)
      (dr : Option (String × String)) (dOpt : Option Bool) (m : DeleteMode) :
      Reachable s → delete_claim s content entity_name rel source dr dOpt m = .ok s' →
      Reachable s'
  | step_drop {s : Store} : Reachable s → Reachable (drop s)

/-! ## Concrete stores used by the witnesses and counterexamples

Each is the literal result of the operation sequence stated in the adjacent
theorems, verified there by `rfl`. -/

/-- After `upsert_alias("B","C")` then `upsert_alias("A","B")`: the alias
chain C -> B -> A. -/
def demoStore : Store :=
  ⟨[⟨1, "B", none⟩, ⟨2, "A", none⟩], [⟨1, 1, "C"⟩, ⟨2, 2, "B"⟩], [], []⟩

/-- After `upsert_relationship("FBI","Mexico",0.5,false)` on the empty store. -/
def relStore1 : Store :=
  ⟨[⟨1, "FBI", none⟩, ⟨2, "Mexico", none⟩], [], [⟨1, 1, 2, (1 : Rat)/2, false⟩], []⟩

/-- After additionally `upsert_relationship("Mexico","FBI",0.9,false)`. -/
def relStore2 : Store :=
  ⟨[⟨1, "FBI", none⟩, ⟨2, "Mexico", none⟩], [], [⟨1, 1, 2, (9 : Rat)/10, false⟩], []⟩

/-- Entities `A`,`B` with `B` registered as an alias of `A`. -/
def mergeStore : Store := ⟨[⟨1, "A", none⟩, ⟨2, "B", none⟩], [⟨1, 1, "B"⟩], [], []⟩

/-- `B`—`X` related, then `B` registered as an alias of `A`: the relationship
touches only the alias-entity `B`, not the canonical `A`. -/
def frameStore : Store :=
  ⟨[⟨1, "B", none⟩, ⟨2, "X", none⟩, ⟨3, "A", none⟩], [⟨1, 3, "B"⟩],
   [⟨1, 1, 2, 1, false⟩], []⟩

/-- Canonical `A` with one alias mapping `B` that has no entity row. -/
def oneAliasStore : Store := ⟨[⟨1, "A", none⟩], [⟨1, 1, "B"⟩], [], []⟩

/-- After `upsert_alias("E","b")` then `upsert_alias("E","a")`: the alias rows
sit in insertion order `b`, `a`. -/
def unsortedStore : Store := ⟨[⟨1, "E", none⟩], [⟨1, 1, "b"⟩, ⟨2, 1, "a"⟩], [], []⟩

/-! ## Generic list lemmas -/

theorem le_foldr_max {n : Nat} {l : List Nat} (h : n ∈ l) : n ≤ l.foldr max 0 := by
  induction l with
  | nil => cases h
  | cons x xs ih =>
    rcases List.mem_cons.1 h with h | h
    · subst h; exact Nat.le_max_left _ _
    · exact le_trans (ih h) (Nat.le_max_right _ _)

theorem freshId_not_mem {l : List Nat} : freshId l ∉ l := by
  intro h
  have := le_foldr_max h
  simp [freshId] at this

theorem nodup_append_singleton {α : Type} {l : List α} {a : α}
    (h1 : l.Nodup) (h2 : a ∉ l) : (l ++ [a]).Nodup := by
  simp [List.nodup_append, h1]
  exact h2

theorem find?_congr {α : Type} {l : List α} {p q : α → Bool}
    (h : ∀ a ∈ l, p a = q a) : l.find? p = l.find? q := by
  induction l with
  | nil => rfl
  | cons a as ih =>
    simp only [List.find?_cons]
    rw [h a (List.mem_cons_self a as)]
    cases q a with
    | true => rfl
    | false => exact ih (fun b hb => h b (List.mem_cons_of_mem a hb))

theorem filter_singleton_find? {α : Type} {l : List α} {p : α → Bool} {x : α}
    (h : l.filter p = [x]) : l.find? p = some x := by
  induction l with
  | nil => simp at h
  | cons a as ih =>
    by_cases hp : p a
    · rw [List.filter_cons_of_pos hp] at h
      injection h with h1 _
      subst h1
      simp [List.find?_cons, hp]
    · rw [List.filter_cons_of_neg hp] at h
      simp only [List.find?_cons, hp]
      simpa using ih h

/-- With a duplicate-free key column, the rows matching the key of a member
row are exactly that row. -/
theorem filter_key_singleton {α κ : Type} [DecidableEq κ] {k : α → κ} {l : List α}
    (h : (l.map k).Nodup) {x : α} (hx : x ∈ l) {p : α → Bool}
    (hp : ∀ y, p y = true ↔ k y = k x) : l.filter p = [x] := by
  induction l with
  | nil => cases hx
  | cons a as ih =>
    rw [List.map_cons, List.nodup_cons] at h
    rcases List.mem_cons.1 hx with heq | hx'
    · have hkax : k a = k x := by rw [heq]
      rw [List.filter_cons_of_pos ((hp a).2 hkax)]
      have hnil : as.filter p = [] := by
        apply List.filter_eq_nil_iff.2
        intro b hb hpb
        apply h.1
        have hkb : k b = k x := (hp b).1 hpb
        exact List.mem_map.2 ⟨b, hb, by rw [hkb, ← hkax]⟩
      rw [hnil, heq]
    · have hpa : ¬ p a = true := by
        intro hpa
        apply h.1
        have hka : k a = k x := (hp a).1 hpa
        rw [hka]
        exact List.mem_map.2 ⟨x, hx', rfl⟩
      rw [List.filter_cons_of_neg hpa]
      exact ih h.2 hx'

/-! ## Lookup lemmas -/

theorem findEntityByName_name {s : Store} {n : String} {e : Entity}
    (h : findEntityByName s n = some e) : e.name = n := by
  have := List.find?_some h
  simpa using this

theorem findEntityByName_mem {s : Store} {n : String} {e : Entity}
    (h : findEntityByName s n = some e) : e ∈ s.entities :=
  List.mem_of_find?_eq_some h

theorem findEntityById_id {s : Store} {i : Nat} {e : Entity}
    (h : findEntityById s i = some e) : e.id = i := by
  have := List.find?_some h
  simpa using this

theorem findEntityById_mem {s : Store} {i : Nat} {e : Entity}
    (h : findEntityById s i = some e) : e ∈ s.entities :=
  List.mem_of_find?_eq_some h

theorem findAliasRow_name {s : Store} {n : String} {a : AliasRow}
    (h : findAliasRow s n = some a) : a.alias_name = n := by
  have := List.find?_some h
  simpa using this

theorem findAliasRow_mem {s : Store} {n : String} {a : AliasRow}
    (h : findAliasRow s n = some a) : a ∈ s.aliases :=
  List.mem_of_find?_eq_some h

/-- Two member rows with equal ids are equal when the id column is
duplicate-free. -/
theorem ent_eq_of_id_eq {s : Store} (h : (s.entities.map (fun e => e.id)).Nodup)
    {e1 e2 : Entity} (h1 : e1 ∈ s.entities) (h2 : e2 ∈ s.entities)
    (hid : e1.id = e2.id) : e1 = e2 :=
  List.inj_on_of_nodup_map h h1 h2 hid

theorem ent_eq_of_name_eq {s : Store} (h : (s.entities.map (fun e => e.name)).Nodup)
    {e1 e2 : Entity} (h1 : e1 ∈ s.entities) (h2 : e2 ∈ s.entities)
    (hn : e1.name = e2.name) : e1 = e2 :=
  List.inj_on_of_nodup_map h h1 h2 hn

/-- The entity-name fallback of `resolve_alias` always returns the input. -/
theorem resolve_fallback (s : Store) (x : String) :
    (match findEntityByName s x with
     | some e => e.name
     | none => x) = x := by
  cases h : findEntityByName s x with
  | some e => exact findEntityByName_name h
  | none => rfl

/-- `resolve_alias` reads only the alias table and the entity table. -/
theorem resolve_alias_proj {s t : Store} (h1 : s.aliases = t.aliases)
    (h2 : s.entities = t.entities) (x : String) :
    resolve_alias s x = resolve_alias t x := by
  unfold resolve_alias findAliasRow findEntityById findEntityByName
  rw [h1, h2]

/-! ## `upsert_entity` characterization -/

theorem upsert_entity_frame (s : Store) (n : String) (ty : Option String) :
    (upsert_entity s n ty).2.aliases = s.aliases ∧
    (upsert_entity s n ty).2.relationships = s.relationships ∧
    (upsert_entity s n ty).2.claims = s.claims := by
  unfold upsert_entity
  cases findEntityByName s n with
  | some e => exact ⟨rfl, rfl, rfl⟩
  | none => exact ⟨rfl, rfl, rfl⟩

/-- The row-update function of the conflict branch preserves id and name. -/
theorem entUpd_id_name (n : String) (ty : Option String) (x : Entity) :
    ((if x.name == n then
        { x with entity_type := match ty with
                                | some t => some t
                                | none => x.entity_type }
      else x) : Entity).id = x.id ∧
    ((if x.name == n then
        { x with entity_type := match ty with
                                | some t => some t
                                | none => x.entity_type }
      else x) : Entity).name = x.name := by
  by_cases h : x.name == n <;> simp [h]

/-- Upserting an existing name with no `entity_type` is the identity
(`COALESCE(NULL, entities.entity_type)` keeps every column). -/
theorem upsert_entity_none_existing {s : Store} {n : String} {e : Entity}
    (h : findEntityByName s n = some e) : upsert_entity s n none = (e.id, s) := by
  unfold upsert_entity
  rw [h]
  have hmap : s.entities.map (fun x =>
      if x.name == n then
        { x with entity_type := match (none : Option String) with
                                | some t => some t
                                | none => x.entity_type }
      else x) = s.entities := by
    have := List.map_congr_left (l := s.entities) (f := fun x =>
      if x.name == n then
        { x with entity_type := match (none : Option String) with
                                | some t => some t
                                | none => x.entity_type }
      else x) (g := fun x => x) (fun a _ => by cases a; simp)
    rw [this]
    exact List.map_id' s.entities
  rw [hmap]

theorem upsert_entity_find_self (s : Store) (n : String) (ty : Option String) :
    ∃ e, findEntityByName (upsert_entity s n ty).2 n = some e ∧
      e.id = (upsert_entity s n ty).1 := by
  unfold upsert_entity
  cases h : findEntityByName s n with
  | some e =>
    refine ⟨{ e with entity_type := match ty with
                                    | some t => some t
                                    | none => e.entity_type }, ?_, rfl⟩
    unfold findEntityByName at h ⊢
    rw [List.find?_map]
    have hp : ∀ a ∈ s.entities,
        ((fun x : Entity => x.name == n) ∘ (fun x : Entity =>
          if x.name == n then
            { x with entity_type := match ty with
                                    | some t => some t
                                    | none => x.entity_type }
          else x)) a = (fun x : Entity => x.name == n) a := by
      intro a _
      simp only [Function.comp]
      rw [(entUpd_id_name n ty a).2]
    rw [find?_congr hp, h]
    simp [List.find?_some h]
    intro hcon
    exact absurd (by simpa using List.find?_some h) hcon
  | none =>
    refine ⟨⟨freshId (s.entities.map (fun x => x.id)), n, ty⟩, ?_, rfl⟩
    unfold findEntityByName at h ⊢
    simp only [List.find?_append, h, Option.none_or]
    simp

theorem upsert_entity_find_other {s : Store} {n m : String} (ty : Option String)
    (hne : m ≠ n) :
    findEntityByName (upsert_entity s n ty).2 m = findEntityByName s m := by
  unfold upsert_entity
  cases h : findEntityByName s n with
  | some e =>
    show findEntityByName _ m = _
    unfold findEntityByName
    rw [List.find?_map]
    have hp : ∀ a ∈ s.entities,
        ((fun x : Entity => x.name == m) ∘ (fun x : Entity =>
          if x.name == n then
            { x with entity_type := match ty with
                                    | some t => some t
                                    | none => x.entity_type }
          else x)) a = (fun x : Entity => x.name == m) a := by
      intro a _
      simp only [Function.comp]
      rw [(entUpd_id_name n ty a).2]
    rw [find?_congr hp]
    cases h2 : s.entities.find? (fun x : Entity => x.name == m) with
    | some e2 =>
      have hname : e2.name = m := by simpa using List.find?_some h2
      have hne2 : e2.name ≠ n := by rw [hname]; exact hne
      rw [Option.map_some']
      rw [if_neg (by simpa using hne2)]
    | none => rfl
  | none =>
    show findEntityByName _ m = _
    unfold findEntityByName
    simp only [List.find?_append]
    have hnm : ((⟨freshId (s.entities.map (fun x => x.id)), n, ty⟩ : Entity).name == m) = false := by
      have : n ≠ m := fun e => hne e.symm
      simpa using this
    have : ([(⟨freshId (s.entities.map (fun x => x.id)), n, ty⟩ : Entity)].find?
        (fun x : Entity => x.name == m)) = none := by
      simp [List.find?_cons, hnm]
    rw [this]
    cases s.entities.find? (fun x : Entity => x.name == m) <;> rfl

/-- Entity lookup by id, projected to the name, is unchanged by an upsert of
any entity whose id already exists (SQLite assigns fresh rowids above every
live id). -/
theorem upsert_entity_findById_name (s : Store) (n : String) (ty : Option String)
    {i : Nat} (hex : ∃ e ∈ s.entities, e.id = i) :
    (findEntityById (upsert_entity s n ty).2 i).map (fun e => e.name) =
      (findEntityById s i).map (fun e => e.name) := by
  unfold upsert_entity
  cases h : findEntityByName s n with
  | some e =>
    show (findEntityById _ i).map _ = _
    unfold findEntityById
    rw [List.find?_map]
    have hp : ∀ a ∈ s.entities,
        ((fun x : Entity => x.id == i) ∘ (fun x : Entity =>
          if x.name == n then
            { x with entity_type := match ty with
                                    | some t => some t
                                    | none => x.entity_type }
          else x)) a = (fun x : Entity => x.id == i) a := by
      intro a _
      simp only [Function.comp]
      rw [(entUpd_id_name n ty a).1]
    rw [find?_congr hp, Option.map_map]
    cases h2 : s.entities.find? (fun x : Entity => x.id == i) with
    | some e2 =>
      exact congrArg some ((entUpd_id_name n ty e2).2)
    | none => rfl
  | none =>
    show (findEntityById _ i).map _ = _
    unfold findEntityById
    rw [List.find?_append]
    obtain ⟨e, he, hei⟩ := hex
    have : (s.entities.find? (fun x : Entity => x.id == i)).isSome := by
      rw [List.find?_isSome]
      exact ⟨e, he, by simpa using hei⟩
    cases h2 : s.entities.find? (fun x : Entity => x.id == i) with
    | some e2 => rfl
    | none => rw [h2] at this; simp at this

/-- Unfolding `resolve_alias` when the name is an alias. -/
theorem resolve_alias_of_aliasRow {s : Store} {x : String} {r : AliasRow}
    (h : findAliasRow s x = some r) :
    resolve_alias s x = (match findEntityById s r.entity_id with
                         | some e => e.name
                         | none => x) := by
  unfold resolve_alias
  rw [h]

/-- Unfolding `resolve_alias` when the name is not an alias: the entity-name
branch always returns the input. -/
theorem resolve_alias_no_alias {s : Store} {x : String}
    (h : findAliasRow s x = none) : resolve_alias s x = x := by
  unfold resolve_alias
  rw [h]
  exact resolve_fallback s x

/-- Fresh alias-free stability: an entity upsert never changes what any name
resolves to, provided every alias row references a live entity. -/
theorem upsert_entity_resolve (s : Store) (n : String) (ty : Option String)
    (href : ∀ a ∈ s.aliases, ∃ e ∈ s.entities, e.id = a.entity_id) (x : String) :
    resolve_alias (upsert_entity s n ty).2 x = resolve_alias s x := by
  have hal : findAliasRow (upsert_entity s n ty).2 x = findAliasRow s x := by
    unfold findAliasRow
    rw [(upsert_entity_frame s n ty).1]
  cases ha : findAliasRow s x with
  | some r =>
    rw [resolve_alias_of_aliasRow (hal.trans ha), resolve_alias_of_aliasRow ha]
    have hstab := upsert_entity_findById_name s n ty
      (i := r.entity_id) (href r (findAliasRow_mem ha))
    cases h1 : findEntityById (upsert_entity s n ty).2 r.entity_id with
    | some e1 =>
      cases h2 : findEntityById s r.entity_id with
      | some e2 =>
        rw [h1, h2] at hstab
        show e1.name = e2.name
        simpa using hstab
      | none => rw [h1, h2] at hstab; simp at hstab
    | none =>
      cases h2 : findEntityById s r.entity_id with
      | some e2 => rw [h1, h2] at hstab; simp at hstab
      | none => rfl
  | none =>
    rw [resolve_alias_no_alias (hal.trans ha), resolve_alias_no_alias ha]

theorem upsert_entity_aliasRefs (s : Store) (n : String) (ty : Option String)
    (href : ∀ a ∈ s.aliases, ∃ e ∈ s.entities, e.id = a.entity_id) :
    ∀ a ∈ (upsert_entity s n ty).2.aliases,
      ∃ e ∈ (upsert_entity s n ty).2.entities, e.id = a.entity_id := by
  intro a ha
  rw [(upsert_entity_frame s n ty).1] at ha
  obtain ⟨e, he, hei⟩ := href a ha
  unfold upsert_entity
  cases h : findEntityByName s n with
  | some e0 =>
    show ∃ e' ∈ s.entities.map (fun x : Entity =>
      if x.name == n then
        { x with entity_type := match ty with
                                | some t => some t
                                | none => x.entity_type }
      else x), e'.id = a.entity_id
    refine ⟨_, List.mem_map_of_mem _ he, ?_⟩
    rw [(entUpd_id_name n ty e).1]
    exact hei
  | none =>
    exact ⟨e, List.mem_append_left _ he, hei⟩

theorem upsert_entity_ents (s : Store) (n : String) (ty : Option String)
    (hid : (s.entities.map (fun e => e.id)).Nodup)
    (hna : (s.entities.map (fun e => e.name)).Nodup) :
    ((upsert_entity s n ty).2.entities.map (fun e => e.id)).Nodup ∧
    ((upsert_entity s n ty).2.entities.map (fun e => e.name)).Nodup := by
  unfold upsert_entity
  cases hf : findEntityByName s n with
  | some e =>
    refine ⟨?_, ?_⟩
    · show (List.map (fun e : Entity => e.id) (s.entities.map (fun x : Entity =>
        if x.name == n then
          { x with entity_type := match ty with
                                  | some t => some t
                                  | none => x.entity_type }
        else x))).Nodup
      rw [List.map_map]
      have hcg : ∀ a ∈ s.entities, ((fun e : Entity => e.id) ∘ (fun x : Entity =>
          if x.name == n then
            { x with entity_type := match ty with
                                    | some t => some t
                                    | none => x.entity_type }
          else x)) a = (fun e : Entity => e.id) a :=
        fun a _ => (entUpd_id_name n ty a).1
      rw [List.map_congr_left hcg]
      exact hid
    · show (List.map (fun e : Entity => e.name) (s.entities.map (fun x : Entity =>
        if x.name == n then
          { x with entity_type := match ty with
                                  | some t => some t
                                  | none => x.entity_type }
        else x))).Nodup
      rw [List.map_map]
      have hcg : ∀ a ∈ s.entities, ((fun e : Entity => e.name) ∘ (fun x : Entity =>
          if x.name == n then
            { x with entity_type := match ty with
                                    | some t => some t
                                    | none => x.entity_type }
          else x)) a = (fun e : Entity => e.name) a :=
        fun a _ => (entUpd_id_name n ty a).2
      rw [List.map_congr_left hcg]
      exact hna
  | none =>
    refine ⟨?_, ?_⟩
    · show (List.map _ (s.entities ++ [_])).Nodup
      rw [List.map_append]
      apply nodup_append_singleton hid
      show freshId (s.entities.map (fun x : Entity => x.id)) ∉ s.entities.map (fun e : Entity => e.id)
      exact freshId_not_mem
    · show (List.map _ (s.entities ++ [_])).Nodup
      rw [List.map_append]
      apply nodup_append_singleton hna
      intro hmem
      obtain ⟨e, he, hn⟩ := List.mem_map.1 hmem
      have := List.find?_eq_none.1 hf e he
      simp [hn] at this

theorem upsert_entity_inv {s : Store} (n : String) (ty : Option String)
    (h : Inv s) : Inv (upsert_entity s n ty).2 :=
  ⟨(upsert_entity_ents s n ty h.entIds h.entNames).1,
   (upsert_entity_ents s n ty h.entIds h.entNames).2,
   by rw [(upsert_entity_frame s n ty).2.1]; exact h.relIds,
   by rw [(upsert_entity_frame s n ty).2.1]; exact h.relKeys,
   upsert_entity_aliasRefs s n ty h.aliasRefs,
   by rw [(upsert_entity_frame s n ty).2.1]; exact h.undirNorm⟩

/-! ## `normalize_pair` lemmas -/

theorem normalize_pair_directed (a b : Nat) (d : Bool) :
    (normalize_pair a b d).2.2 = d := by
  unfold normalize_pair
  split
  · next h =>
    simp at h
    exact h.1.symm
  · rfl

theorem normalize_pair_lt {a b : Nat} (hne : a ≠ b) :
    (normalize_pair a b false).1 < (normalize_pair a b false).2.1 := by
  unfold normalize_pair
  rcases Nat.lt_or_ge b a with h | h
  · rw [if_pos (by simp [h])]
    exact h
  · rw [if_neg (by simp; omega)]
    show a < b
    omega

theorem normalize_pair_swap {a b : Nat} (hne : a ≠ b) :
    normalize_pair b a false = normalize_pair a b false := by
  unfold normalize_pair
  rcases Nat.lt_or_ge a b with h | h
  · rw [if_pos (by simp [h]), if_neg (by simp; omega)]
  · have h' : b < a := by omega
    rw [if_neg (by simp; omega), if_pos (by simp [h'])]

/-! ## `upsert_relationship` lemmas -/

/-- Ensuring both canonical entities leaves two rows with distinct ids. -/
theorem upsert_two_entities (s : Store) {sc tc : String} (hne : sc ≠ tc)
    (hid : (s.entities.map (fun e => e.id)).Nodup)
    (hna : (s.entities.map (fun e => e.name)).Nodup) :
    ∃ e1 e2,
      findEntityByName (upsert_entity (upsert_entity s sc none).2 tc none).2 sc = some e1 ∧
      findEntityByName (upsert_entity (upsert_entity s sc none).2 tc none).2 tc = some e2 ∧
      e1.id = (upsert_entity s sc none).1 ∧
      e2.id = (upsert_entity (upsert_entity s sc none).2 tc none).1 ∧
      e1.id ≠ e2.id := by
  obtain ⟨e1, he1, hid1⟩ := upsert_entity_find_self s sc none
  obtain ⟨e2, he2, hid2⟩ := upsert_entity_find_self (upsert_entity s sc none).2 tc none
  have he1' : findEntityByName (upsert_entity (upsert_entity s sc none).2 tc none).2 sc = some e1 := by
    rw [upsert_entity_find_other none hne]
    exact he1
  refine ⟨e1, e2, he1', he2, hid1, hid2, ?_⟩
  intro hcon
  have hents := upsert_entity_ents (upsert_entity s sc none).2 tc none
    (upsert_entity_ents s sc none hid hna).1 (upsert_entity_ents s sc none hid hna).2
  have heq : e1 = e2 :=
    ent_eq_of_id_eq hents.1 (findEntityByName_mem he1') (findEntityByName_mem he2) hcon
  apply hne
  rw [← findEntityByName_name he1', ← findEntityByName_name he2, heq]

/-- The strength-update row function of the conflict branch preserves id and
endpoint columns. -/
theorem relUpd_fields (r0 : RelRow) (w : Rat) (q : RelRow) :
    ((if q.id == r0.id then { q with strength := w } else q) : RelRow).id = q.id ∧
    ((if q.id == r0.id then { q with strength := w } else q) : RelRow).source_id = q.source_id ∧
    ((if q.id == r0.id then { q with strength := w } else q) : RelRow).target_id = q.target_id ∧
    ((if q.id == r0.id then { q with strength := w } else q) : RelRow).directed = q.directed := by
  by_cases h : q.id == r0.id <;> simp [h]

theorem upsert_relationship_frame {s : Store} {a b : String} {w : Rat} {d : Bool}
    {i : Nat} {s' : Store} (h : upsert_relationship s a b w d = .ok (i, s')) :
    s'.aliases = s.aliases ∧ s'.claims = s.claims ∧
    s'.entities =
      (upsert_entity (upsert_entity s (resolve_alias s a) none).2 (resolve_alias s b) none).2.entities := by
  simp only [upsert_relationship] at h
  split at h
  · exact Except.noConfusion h
  · split at h <;>
    · simp only [Except.ok.injEq, Prod.mk.injEq] at h
      obtain ⟨hi, hs⟩ := h
      subst hs
      refine ⟨?_, ?_, rfl⟩
      · show (upsert_entity (upsert_entity s (resolve_alias s a) none).2 (resolve_alias s b) none).2.aliases = s.aliases
        rw [(upsert_entity_frame _ _ _).1, (upsert_entity_frame _ _ _).1]
      · show (upsert_entity (upsert_entity s (resolve_alias s a) none).2 (resolve_alias s b) none).2.claims = s.claims
        rw [(upsert_entity_frame _ _ _).2.2, (upsert_entity_frame _ _ _).2.2]

theorem upsert_relationship_resolve {s : Store} {a b : String} {w : Rat} {d : Bool}
    {i : Nat} {s' : Store} (href : AliasRefsOk s)
    (h : upsert_relationship s a b w d = .ok (i, s')) :
    (∀ x, resolve_alias s' x = resolve_alias s x) ∧ AliasRefsOk s' := by
  obtain ⟨hal, hcl, hent⟩ := upsert_relationship_frame h
  have href1 : AliasRefsOk (upsert_entity s (resolve_alias s a) none).2 :=
    upsert_entity_aliasRefs s _ none href
  have href2 : AliasRefsOk (upsert_entity (upsert_entity s (resolve_alias s a) none).2 (resolve_alias s b) none).2 :=
    upsert_entity_aliasRefs _ _ none href1
  have halias2 :
      (upsert_entity (upsert_entity s (resolve_alias s a) none).2 (resolve_alias s b) none).2.aliases = s.aliases := by
    rw [(upsert_entity_frame _ _ _).1, (upsert_entity_frame _ _ _).1]
  constructor
  · intro x
    have h1 : resolve_alias s' x =
        resolve_alias (upsert_entity (upsert_entity s (resolve_alias s a) none).2 (resolve_alias s b) none).2 x :=
      resolve_alias_proj (by rw [hal, halias2]) hent x
    rw [h1, upsert_entity_resolve _ _ _ href1, upsert_entity_resolve _ _ _ href]
  · intro a2 ha2
    rw [hal] at ha2
    rw [hent]
    exact href2 a2 (by rw [halias2]; exact ha2)

/-- A failed self-collision check is impossible in a successful call. -/
theorem upsert_relationship_ok_ne {s : Store} {a b : String} {w : Rat} {d : Bool}
    {i : Nat} {s' : Store} (h : upsert_relationship s a b w d = .ok (i, s')) :
    resolve_alias s a ≠ resolve_alias s b := by
  intro hcon
  simp only [upsert_relationship] at h
  rw [if_pos (by simp [hcon])] at h
  exact Except.noConfusion h

theorem upsert_relationship_inv {s : Store} {a b : String} {w : Rat} {d : Bool}
    {i : Nat} {s' : Store} (hin : Inv s)
    (h : upsert_relationship s a b w d = .ok (i, s')) : Inv s' := by
  have hne := upsert_relationship_ok_ne h
  obtain ⟨e1, e2, hf1, hf2, hi1, hi2, hieq⟩ :=
    upsert_two_entities s hne hin.entIds hin.entNames
  have hin2 : Inv (upsert_entity (upsert_entity s (resolve_alias s a) none).2 (resolve_alias s b) none).2 :=
    upsert_entity_inv _ _ (upsert_entity_inv _ _ hin)
  simp only [upsert_relationship] at h
  rw [if_neg (by simp [hne])] at h
  split at h
  · rename_i r hfind
    simp only [Except.ok.injEq, Prod.mk.injEq] at h
    obtain ⟨hi, hs⟩ := h
    subst hs
    refine ⟨hin2.entIds, hin2.entNames, ?_, ?_, hin2.aliasRefs, ?_⟩
    · show (List.map (fun q : RelRow => q.id) (List.map _ _)).Nodup
      rw [List.map_map]
      rw [List.map_congr_left (fun q _ => by
        show ((fun q : RelRow => q.id) ∘
          (fun q : RelRow => if q.id == r.id then { q with strength := w } else q)) q = q.id
        exact (relUpd_fields r w q).1)]
      exact hin2.relIds
    · show (List.map (fun q : RelRow => (q.source_id, q.target_id, q.directed)) (List.map _ _)).Nodup
      rw [List.map_map]
      rw [List.map_congr_left (fun q _ => by
        show ((fun q : RelRow => (q.source_id, q.target_id, q.directed)) ∘
          (fun q : RelRow => if q.id == r.id then { q with strength := w } else q)) q =
          (q.source_id, q.target_id, q.directed)
        obtain ⟨_, h2, h3, h4⟩ := relUpd_fields r w q
        show (_, _, _) = (_, _, _)
        rw [h2, h3, h4])]
      exact hin2.relKeys
    · intro q' hq' hdir
      obtain ⟨q, hq, hqe⟩ := List.mem_map.1 hq'
      obtain ⟨_, hsrc, htgt, hdir0⟩ := relUpd_fields r w q
      rw [← hqe, hsrc, htgt]
      apply hin2.undirNorm q hq
      rw [← hdir0, hqe]
      exact hdir
  · rename_i hfind
    simp only [Except.ok.injEq, Prod.mk.injEq] at h
    obtain ⟨hi, hs⟩ := h
    subst hs
    have hne12 : (upsert_entity s (resolve_alias s a) none).1 ≠
        (upsert_entity (upsert_entity s (resolve_alias s a) none).2 (resolve_alias s b) none).1 := by
      rw [← hi1, ← hi2]
      exact hieq
    refine ⟨hin2.entIds, hin2.entNames, ?_, ?_, hin2.aliasRefs, ?_⟩
    · show (List.map (fun q : RelRow => q.id) (_ ++ [_])).Nodup
      rw [List.map_append]
      apply nodup_append_singleton hin2.relIds
      show freshId ((upsert_entity (upsert_entity s (resolve_alias s a) none).2 (resolve_alias s b) none).2.relationships.map
        (fun q : RelRow => q.id)) ∉ _
      exact freshId_not_mem
    · show (List.map (fun q : RelRow => (q.source_id, q.target_id, q.directed)) (_ ++ [_])).Nodup
      rw [List.map_append]
      apply nodup_append_singleton hin2.relKeys
      intro hmem
      obtain ⟨q, hq, hkq⟩ := List.mem_map.1 hmem
      have hnp := List.find?_eq_none.1 hfind q hq
      apply hnp
      have h1 : q.source_id = (normalize_pair (upsert_entity s (resolve_alias s a) none).1
          (upsert_entity (upsert_entity s (resolve_alias s a) none).2 (resolve_alias s b) none).1 d).1 :=
        congrArg (fun p : Nat × Nat × Bool => p.1) hkq
      have h2 : q.target_id = (normalize_pair (upsert_entity s (resolve_alias s a) none).1
          (upsert_entity (upsert_entity s (resolve_alias s a) none).2 (resolve_alias s b) none).1 d).2.1 :=
        congrArg (fun p : Nat × Nat × Bool => p.2.1) hkq
      have h3 : q.directed = (normalize_pair (upsert_entity s (resolve_alias s a) none).1
          (upsert_entity (upsert_entity s (resolve_alias s a) none).2 (resolve_alias s b) none).1 d).2.2 :=
        congrArg (fun p : Nat × Nat × Bool => p.2.2) hkq
      simp [h1, h2, h3]
    · intro q hq hdir
      rcases List.mem_append.1 hq with hq | hq
      · exact hin2.undirNorm q hq hdir
      · have hqe : q = ⟨freshId ((upsert_entity (upsert_entity s (resolve_alias s a) none).2
              (resolve_alias s b) none).2.relationships.map (fun q : RelRow => q.id)),
              (normalize_pair (upsert_entity s (resolve_alias s a) none).1
                (upsert_entity (upsert_entity s (resolve_alias s a) none).2 (resolve_alias s b) none).1 d).1,
              (normalize_pair (upsert_entity s (resolve_alias s a) none).1
                (upsert_entity (upsert_entity s (resolve_alias s a) none).2 (resolve_alias s b) none).1 d).2.1,
              w,
              (normalize_pair (upsert_entity s (resolve_alias s a) none).1
                (upsert_entity (upsert_entity s (resolve_alias s a) none).2 (resolve_alias s b) none).1 d).2.2⟩ := by
          simpa using hq
        subst hqe
        simp only at hdir ⊢
        have hd : d = false := by
          rw [← normalize_pair_directed (upsert_entity s (resolve_alias s a) none).1
            (upsert_entity (upsert_entity s (resolve_alias s a) none).2 (resolve_alias s b) none).1 d]
          exact hdir
        subst hd
        exact normalize_pair_lt hne12

theorem findEntityByName_proj {s t : Store} (h : s.entities = t.entities) (n : String) :
    findEntityByName s n = findEntityByName t n := by
  unfold findEntityByName
  rw [h]

/-- Postcondition of a successful `upsert_relationship`: both canonical
entities exist with distinct ids, and exactly one relationship row carries the
normalized key, with the strength just written. -/
theorem upsert_relationship_post {s : Store} {a b : String} {w : Rat} {d : Bool}
    {i : Nat} {s' : Store} (hwf : WF s)
    (h : upsert_relationship s a b w d = .ok (i, s')) :
    ∃ e1 e2,
      findEntityByName s' (resolve_alias s a) = some e1 ∧
      findEntityByName s' (resolve_alias s b) = some e2 ∧
      e1.id ≠ e2.id ∧
      (s'.relationships.filter (fun r =>
        r.source_id == (normalize_pair e1.id e2.id d).1 &&
        r.target_id == (normalize_pair e1.id e2.id d).2.1 &&
        r.directed == (normalize_pair e1.id e2.id d).2.2)).map (fun r => r.strength) = [w] := by
  have hne := upsert_relationship_ok_ne h
  obtain ⟨e1, e2, hf1, hf2, hi1, hi2, hieq⟩ :=
    upsert_two_entities s hne hwf.1 hwf.2.1
  obtain ⟨hal, hcl, hent⟩ := upsert_relationship_frame h
  have hrel2 : (upsert_entity (upsert_entity s (resolve_alias s a) none).2 (resolve_alias s b) none).2.relationships
      = s.relationships := by
    rw [(upsert_entity_frame _ _ _).2.1, (upsert_entity_frame _ _ _).2.1]
  refine ⟨e1, e2, ?_, ?_, hieq, ?_⟩
  · rw [findEntityByName_proj hent]
    exact hf1
  · rw [findEntityByName_proj hent]
    exact hf2
  · rw [hi1, hi2]
    simp only [upsert_relationship] at h
    rw [if_neg (by simp [hne])] at h
    split at h
    · rename_i r hfind
      simp only [Except.ok.injEq, Prod.mk.injEq] at h
      obtain ⟨hi, hs⟩ := h
      subst hs
      show ((List.map (fun q : RelRow => if q.id == r.id then { q with strength := w } else q) _).filter _).map _ = [w]
      rw [List.filter_map]
      have hpr := List.find?_some hfind
      have hkeyr : (r.source_id, r.target_id, r.directed) =
          ((normalize_pair (upsert_entity s (resolve_alias s a) none).1
            (upsert_entity (upsert_entity s (resolve_alias s a) none).2 (resolve_alias s b) none).1 d).1,
           (normalize_pair (upsert_entity s (resolve_alias s a) none).1
            (upsert_entity (upsert_entity s (resolve_alias s a) none).2 (resolve_alias s b) none).1 d).2.1,
           (normalize_pair (upsert_entity s (resolve_alias s a) none).1
            (upsert_entity (upsert_entity s (resolve_alias s a) none).2 (resolve_alias s b) none).1 d).2.2) := by
        simp only [Bool.and_eq_true, beq_iff_eq] at hpr
        rw [hpr.1.1, hpr.1.2, hpr.2]
      have hfc : List.filter ((fun q : RelRow =>
            q.source_id == (normalize_pair (upsert_entity s (resolve_alias s a) none).1
              (upsert_entity (upsert_entity s (resolve_alias s a) none).2 (resolve_alias s b) none).1 d).1 &&
            q.target_id == (normalize_pair (upsert_entity s (resolve_alias s a) none).1
              (upsert_entity (upsert_entity s (resolve_alias s a) none).2 (resolve_alias s b) none).1 d).2.1 &&
            q.directed == (normalize_pair (upsert_entity s (resolve_alias s a) none).1
              (upsert_entity (upsert_entity s (resolve_alias s a) none).2 (resolve_alias s b) none).1 d).2.2) ∘
            (fun q : RelRow => if q.id == r.id then { q with strength := w } else q))
          (upsert_entity (upsert_entity s (resolve_alias s a) none).2 (resolve_alias s b) none).2.relationships =
          List.filter (fun q : RelRow =>
            q.source_id == (normalize_pair (upsert_entity s (resolve_alias s a) none).1
              (upsert_entity (upsert_entity s (resolve_alias s a) none).2 (resolve_alias s b) none).1 d).1 &&
            q.target_id == (normalize_pair (upsert_entity s (resolve_alias s a) none).1
              (upsert_entity (upsert_entity s (resolve_alias s a) none).2 (resolve_alias s b) none).1 d).2.1 &&
            q.directed == (normalize_pair (upsert_entity s (resolve_alias s a) none).1
              (upsert_entity (upsert_entity s (resolve_alias s a) none).2 (resolve_alias s b) none).1 d).2.2)
          (upsert_entity (upsert_entity s (resolve_alias s a) none).2 (resolve_alias s b) none).2.relationships := by
        apply List.filter_congr
        intro q _
        show (fun q : RelRow =>
            q.source_id == _ && q.target_id == _ && q.directed == _)
          ((fun q : RelRow => if q.id == r.id then { q with strength := w } else q) q) = _
        obtain ⟨_, h2, h3, h4⟩ := relUpd_fields r w q
        simp only [h2, h3, h4]
      rw [hfc]
      have hsingle : List.filter (fun q : RelRow =>
            q.source_id == (normalize_pair (upsert_entity s (resolve_alias s a) none).1
              (upsert_entity (upsert_entity s (resolve_alias s a) none).2 (resolve_alias s b) none).1 d).1 &&
            q.target_id == (normalize_pair (upsert_entity s (resolve_alias s a) none).1
              (upsert_entity (upsert_entity s (resolve_alias s a) none).2 (resolve_alias s b) none).1 d).2.1 &&
            q.directed == (normalize_pair (upsert_entity s (resolve_alias s a) none).1
              (upsert_entity (upsert_entity s (resolve_alias s a) none).2 (resolve_alias s b) none).1 d).2.2)
          (upsert_entity (upsert_entity s (resolve_alias s a) none).2 (resolve_alias s b) none).2.relationships = [r] := by
        apply filter_key_singleton (k := fun q : RelRow => (q.source_id, q.target_id, q.directed))
        · rw [hrel2]
          exact hwf.2.2.2.1
        · exact List.mem_of_find?_eq_some hfind
        · intro y
          show (y.source_id == _ && y.target_id == _ && y.directed == _) = true ↔
            (y.source_id, y.target_id, y.directed) = (r.source_id, r.target_id, r.directed)
          rw [hkeyr]
          simp only [Bool.and_eq_true, beq_iff_eq, Prod.mk.injEq]
          tauto
      rw [hsingle]
      simp
    · rename_i hfind
      simp only [Except.ok.injEq, Prod.mk.injEq] at h
      obtain ⟨hi, hs⟩ := h
      subst hs
      show (List.filter _ (_ ++ [_])).map _ = [w]
      rw [List.filter_append]
      have hn : List.filter (fun q : RelRow =>
            q.source_id == (normalize_pair (upsert_entity s (resolve_alias s a) none).1
              (upsert_entity (upsert_entity s (resolve_alias s a) none).2 (resolve_alias s b) none).1 d).1 &&
            q.target_id == (normalize_pair (upsert_entity s (resolve_alias s a) none).1
              (upsert_entity (upsert_entity s (resolve_alias s a) none).2 (resolve_alias s b) none).1 d).2.1 &&
            q.directed == (normalize_pair (upsert_entity s (resolve_alias s a) none).1
              (upsert_entity (upsert_entity s (resolve_alias s a) none).2 (resolve_alias s b) none).1 d).2.2)
          (upsert_entity (upsert_entity s (resolve_alias s a) none).2 (resolve_alias s b) none).2.relationships = [] := by
        apply List.filter_eq_nil_iff.2
        intro q hq
        exact fun hc => (List.find?_eq_none.1 hfind q hq) hc
      rw [hn]
      simp

theorem Inv.wf {s : Store} (h : Inv s) : WF s :=
  ⟨h.entIds, h.entNames, h.relIds, h.relKeys, h.aliasRefs⟩

/-- C4: Repeated `upsert_relationship` on the same endpoint pair (in either
order when undirected) and the same directed flag leaves exactly one
relationship row for the normalized key of the two canonical entities, and
its strength is the `w` of the last call. -/
theorem C4_upsert_monotonic (s : Store) (a b a' b' : String) (w1 w2 : Rat)
    (d : Bool) (i1 i2 : Nat) (s1 s2 : Store) (hin : Inv s)
    (h1 : upsert_relationship s a b w1 d = .ok (i1, s1))
    (h2 : upsert_relationship s1 a' b' w2 d = .ok (i2, s2))
    (hpair : (a' = a ∧ b' = b) ∨ (d = false ∧ a' = b ∧ b' = a)) :
    ∃ sid tid,
      (findEntityByName s2 (resolve_alias s2 a)).map (fun e => e.id) = some sid ∧
      (findEntityByName s2 (resolve_alias s2 b)).map (fun e => e.id) = some tid ∧
      (s2.relationships.filter (fun r =>
        r.source_id == (normalize_pair sid tid d).1 &&
        r.target_id == (normalize_pair sid tid d).2.1 &&
        r.directed == (normalize_pair sid tid d).2.2)).map (fun r => r.strength) = [w2] := by
  have hin1 : Inv s1 := upsert_relationship_inv hin h1
  have hres2 := upsert_relationship_resolve hin1.aliasRefs h2
  obtain ⟨E1, E2, hF1, hF2, hneq, hfilter⟩ := upsert_relationship_post hin1.wf h2
  rcases hpair with ⟨ha, hb⟩ | ⟨hd, ha, hb⟩
  · rw [ha] at hF1
    rw [hb] at hF2
    refine ⟨E1.id, E2.id, ?_, ?_, hfilter⟩
    · rw [hres2.1 a, hF1]
      rfl
    · rw [hres2.1 b, hF2]
      rfl
  · subst hd
    rw [ha] at hF1
    rw [hb] at hF2
    refine ⟨E2.id, E1.id, ?_, ?_, ?_⟩
    · rw [hres2.1 a, hF2]
      rfl
    · rw [hres2.1 b, hF1]
      rfl
    · rw [normalize_pair_swap hneq]
      exact hfilter

/-- Witness for C4 at the spec scenario: `("FBI","Mexico",0.5,false)` then
`("Mexico","FBI",0.9,false)` leaves one normalized row of strength `0.9`. -/
theorem C4_upsert_monotonic_witness :
    Inv Store.empty ∧
    upsert_relationship Store.empty "FBI" "Mexico" ((1 : Rat)/2) false = .ok (1, relStore1) ∧
    upsert_relationship relStore1 "Mexico" "FBI" ((9 : Rat)/10) false = .ok (1, relStore2) ∧
    (∃ sid tid,
      (findEntityByName relStore2 (resolve_alias relStore2 "FBI")).map (fun e => e.id) = some sid ∧
      (findEntityByName relStore2 (resolve_alias relStore2 "Mexico")).map (fun e => e.id) = some tid ∧
      (relStore2.relationships.filter (fun r =>
        r.source_id == (normalize_pair sid tid false).1 &&
        r.target_id == (normalize_pair sid tid false).2.1 &&
        r.directed == (normalize_pair sid tid false).2.2)).map (fun r => r.strength) = [(9 : Rat)/10]) :=
  ⟨⟨by decide, by decide, by decide, by decide, by decide, by decide⟩, rfl, rfl,
   C4_upsert_monotonic Store.empty "FBI" "Mexico" "Mexico" "FBI" ((1 : Rat)/2) ((9 : Rat)/10)
     false 1 1 relStore1 relStore2
     ⟨by decide, by decide, by decide, by decide, by decide, by decide⟩
     rfl rfl (Or.inr ⟨rfl, rfl, rfl⟩)⟩

/-- `Inv` ignores the claims column. -/
theorem inv_of_frame {s t : Store} (h : Inv s) (he : t.entities = s.entities)
    (ha : t.aliases = s.aliases) (hr : t.relationships = s.relationships) : Inv t := by
  refine ⟨?_, ?_, ?_, ?_, ?_, ?_⟩
  · rw [he]; exact h.entIds
  · rw [he]; exact h.entNames
  · rw [hr]; exact h.relIds
  · rw [hr]; exact h.relKeys
  · intro a2 ha2
    rw [he]
    exact h.aliasRefs a2 (by rw [← ha]; exact ha2)
  · rw [hr]; exact h.undirNorm

theorem upsert_alias_inv {s s' : Store} {en al : String} {i : Nat}
    (h : upsert_alias s en al = .ok (i, s')) (hin : Inv s) : Inv s' := by
  simp only [upsert_alias] at h
  split at h
  · exact Except.noConfusion h
  split at h
  · exact Except.noConfusion h
  split at h
  · exact Except.noConfusion h
  have hin2 : Inv (upsert_entity s en none).2 := upsert_entity_inv _ _ hin
  split at h
  · rename_i ex hex
    split at h
    · exact Except.noConfusion h
    · simp only [Except.ok.injEq, Prod.mk.injEq] at h
      obtain ⟨hi, hs⟩ := h
      subst hs
      exact hin2
  · rename_i hex
    simp only [Except.ok.injEq, Prod.mk.injEq] at h
    obtain ⟨hi, hs⟩ := h
    subst hs
    refine ⟨hin2.entIds, hin2.entNames, hin2.relIds, hin2.relKeys, ?_, hin2.undirNorm⟩
    intro a2 ha2
    rcases List.mem_append.1 ha2 with ha2 | ha2
    · exact hin2.aliasRefs a2 ha2
    · have ha2e : a2 = ⟨freshId ((upsert_entity s en none).2.aliases.map (fun a => a.id)),
          (upsert_entity s en none).1, al⟩ := by
        simpa using ha2
      subst ha2e
      obtain ⟨e, he, hid⟩ := upsert_entity_find_self s en none
      exact ⟨e, findEntityByName_mem he, hid⟩

theorem upsert_claim_inv {s s' : Store} {content : String} {source entity_name : Option String}
    {rel : Option RelationshipRecord} {now : String} {i : Nat}
    (h : upsert_claim s content source entity_name rel now = .ok (i, s')) (hin : Inv s) :
    Inv s' := by
  simp only [upsert_claim] at h
  split at h
  · exact Except.noConfusion h
  split at h
  · exact Except.noConfusion h
  by_cases ht : truthyName entity_name = true
  · rw [if_pos ht] at h
    simp only [Except.ok.injEq, Prod.mk.injEq] at h
    obtain ⟨hi, hs⟩ := h
    subst hs
    exact inv_of_frame (upsert_entity_inv _ _ hin) rfl rfl rfl
  · rw [if_neg ht] at h
    cases hrel : rel with
    | none =>
      rw [hrel] at h
      simp only [Except.ok.injEq, Prod.mk.injEq] at h
      obtain ⟨hi, hs⟩ := h
      subst hs
      exact inv_of_frame hin rfl rfl rfl
    | some R =>
      rw [hrel] at h
      cases hur : upsert_relationship s R.source_name R.target_name R.strength R.directed with
      | error e =>
        simp only [hur] at h
        exact Except.noConfusion h
      | ok p =>
        simp only [hur] at h
        simp only [Except.ok.injEq, Prod.mk.injEq] at h
        obtain ⟨hi, hs⟩ := h
        subst hs
        have hok : upsert_relationship s R.source_name R.target_name R.strength R.directed = .ok (p.1, p.2) := by
          rw [hur]
        exact inv_of_frame (upsert_relationship_inv hin hok) rfl rfl rfl

/-- Rewriting one keyed row (found by id) to a fresh key keeps the key column
duplicate-free. -/
theorem nodup_map_update {α κ : Type} [DecidableEq κ] (l : List α) (k : α → κ)
    (idf : α → Nat) (qid : Nat) (t : κ)
    (hids : (l.map idf).Nodup) (hkeys : (l.map k).Nodup) (ht : t ∉ l.map k) :
    (l.map (fun r => if idf r == qid then t else k r)).Nodup := by
  induction l with
  | nil => simp
  | cons a as ih =>
    rw [List.map_cons, List.nodup_cons] at hids hkeys
    have htc : t ≠ k a ∧ t ∉ as.map k := by
      rw [List.map_cons] at ht
      simpa [not_or] using ht
    rw [List.map_cons, List.nodup_cons]
    by_cases hid : (idf a == qid) = true
    · rw [if_pos hid]
      have htail : as.map (fun r => if idf r == qid then t else k r) = as.map k := by
        apply List.map_congr_left
        intro r hr
        have : (idf r == qid) = false := by
          rw [beq_eq_false_iff_ne]
          intro hc
          apply hids.1
          rw [← (beq_iff_eq.1 hid)] at hc
          exact List.mem_map.2 ⟨r, hr, hc⟩
        rw [this]
        rfl
      rw [htail]
      exact ⟨htc.2, hkeys.2⟩
    · rw [if_neg hid]
      refine ⟨?_, ih hids.2 hkeys.2 htc.2⟩
      intro hmem
      obtain ⟨r, hr, hkr⟩ := List.mem_map.1 hmem
      by_cases hid2 : (idf r == qid) = true
      · rw [if_pos hid2] at hkr
        exact htc.1 hkr
      · rw [if_neg hid2] at hkr
        exact hkeys.1 (List.mem_map.2 ⟨r, hr, hkr⟩)

/-- The relationship-table well-formedness threaded through the merge loop. -/
abbrev RelsOk (l : List RelRow) : Prop :=
  (l.map (fun r => r.id)).Nodup ∧
  (l.map (fun r => (r.source_id, r.target_id, r.directed))).Nodup ∧
  ∀ r ∈ l, r.directed = false → r.source_id < r.target_id

theorem mergeRels_relsOk (cid aid : Nat) (cn an : String) :
    ∀ (qs : List RelRow) (rels : List RelRow) (claims : List ClaimRow)
      (out : List RelRow × List ClaimRow),
      mergeRels cid aid cn an qs (rels, claims) = .ok out →
      RelsOk rels → RelsOk out.1 := by
  intro qs
  induction qs with
  | nil =>
    intro rels claims out h hok
    simp only [mergeRels] at h
    injection h with h1
    rw [← h1]
    exact hok
  | cons q qs ih =>
    intro rels claims out h hok
    simp only [mergeRels] at h
    generalize hns : (if (q.source_id == aid) = true then cid else q.source_id) = ns at h
    generalize hnt : (if (q.target_id == aid) = true then cid else q.target_id) = nt at h
    split at h
    · exact Except.noConfusion h
    · rename_i hnsnt
      have hnsnt2 : ns ≠ nt := by
        intro hc
        exact hnsnt (by simpa using hc)
      split at h
      · rename_i ex hfind
        apply ih _ _ _ h
        refine ⟨?_, ?_, ?_⟩
        · exact ((List.filter_sublist rels).map (fun r => r.id)).nodup hok.1
        · exact ((List.filter_sublist rels).map
            (fun r => (r.source_id, r.target_id, r.directed))).nodup hok.2.1
        · intro r hr
          exact hok.2.2 r (List.mem_of_mem_filter hr)
      · rename_i hfind
        apply ih _ _ _ h
        refine ⟨?_, ?_, ?_⟩
        · rw [List.map_map]
          rw [List.map_congr_left (g := fun r : RelRow => r.id) (fun r _ => by
            by_cases hc : (r.id == q.id) = true
            · simp [beq_iff_eq.1 hc]
            · have hcne : r.id ≠ q.id := by simpa using hc
              simp [hcne])]
          exact hok.1
        · rw [List.map_map]
          rw [List.map_congr_left (g := fun r : RelRow =>
            if r.id == q.id then
              ((normalize_pair ns nt q.directed).1,
               (normalize_pair ns nt q.directed).2.1,
               (normalize_pair ns nt q.directed).2.2)
            else (r.source_id, r.target_id, r.directed)) (fun r _ => by
            by_cases hc : (r.id == q.id) = true
            · simp [beq_iff_eq.1 hc, hc]
            · have hcne : r.id ≠ q.id := by simpa using hc
              simp [hcne])]
          apply nodup_map_update _ _ _ _ _ hok.1 hok.2.1
          intro hmem
          obtain ⟨r, hr, hkr⟩ := List.mem_map.1 hmem
          apply List.find?_eq_none.1 hfind r hr
          have h1 := congrArg (fun p : Nat × Nat × Bool => p.1) hkr
          have h2 := congrArg (fun p : Nat × Nat × Bool => p.2.1) hkr
          have h3 := congrArg (fun p : Nat × Nat × Bool => p.2.2) hkr
          simp only at h1 h2 h3
          simp [h1, h2, h3]
        · intro r hr hdir
          obtain ⟨r0, hr0, hre⟩ := List.mem_map.1 hr
          by_cases hc : (r0.id == q.id) = true
          · rw [if_pos hc] at hre
            rw [← hre] at hdir ⊢
            simp only at hdir ⊢
            have hqd : q.directed = false := by
              rw [← normalize_pair_directed ns nt q.directed]
              exact hdir
            rw [hqd] at hdir ⊢
            exact normalize_pair_lt hnsnt2
          · rw [if_neg hc] at hre
            rw [← hre] at hdir ⊢
            exact hok.2.2 r0 hr0 hdir

/-- Anatomy of a successful `merge_alias`: the guard facts and the final
store, for the no-op path and the physical-merge path. -/
theorem merge_alias_ok_cases {s s' : Store} {cn an : String}
    (h : merge_alias s cn an = .ok s') :
    ∃ crow, findEntityByName s cn = some crow ∧
      ∃ am, findAliasRow s an = some am ∧ am.entity_id = crow.id ∧
      ((findEntityByName s an = none ∧ s' = s) ∨
       (∃ (arow : Entity) (relsClaims : List RelRow × List ClaimRow),
         findEntityByName s an = some arow ∧
         mergeRels crow.id arow.id cn an
           (s.relationships.filter (fun r => r.source_id == arow.id || r.target_id == arow.id))
           (s.relationships, s.claims) = .ok relsClaims ∧
         (∀ a2 ∈ s.aliases, (a2.entity_id == arow.id) = false) ∧
         s' = { s with
                relationships := relsClaims.1
                claims := relsClaims.2.map (fun c =>
                  if c.entity_id == some arow.id then { c with entity_id := some crow.id } else c)
                entities := s.entities.filter (fun e => e.id != arow.id) })) := by
  simp only [merge_alias] at h
  split at h
  · split at h <;> exact Except.noConfusion h
  · rename_i crow hcrow
    refine ⟨crow, hcrow, ?_⟩
    split at h
    · exact Except.noConfusion h
    · rename_i am ham
      split at h
      · exact Except.noConfusion h
      · rename_i hameq
        have hameq2 : am.entity_id = crow.id := by simpa using hameq
        refine ⟨am, ham, hameq2, ?_⟩
        split at h
        · rename_i harow
          left
          injection h with h1
          exact ⟨harow, h1.symm⟩
        · rename_i arow harow
          right
          split at h
          · exact Except.noConfusion h
          · rename_i rels2 claims2 hmerge
            split at h
            · exact Except.noConfusion h
            · rename_i hany
              refine ⟨arow, (rels2, claims2), harow, ?_, ?_, ?_⟩
              · rw [hmerge]
              · intro a2 ha2
                rw [← Bool.not_eq_true]
                intro hc
                exact hany (List.any_eq_true.2 ⟨a2, ha2, hc⟩)
              · injection h with h1
                rw [← h1]
  -- done

theorem merge_alias_inv {s s' : Store} {cn an : String}
    (h : merge_alias s cn an = .ok s') (hin : Inv s) : Inv s' := by
  obtain ⟨crow, hcrow, am, ham, hameq, hcase⟩ := merge_alias_ok_cases h
  rcases hcase with ⟨hnone, rfl⟩ | ⟨arow, relsClaims, harow, hmerge, hany, rfl⟩
  · exact hin
  · have hrels : RelsOk relsClaims.1 :=
      mergeRels_relsOk crow.id arow.id cn an _ _ _ _ hmerge
        ⟨hin.relIds, hin.relKeys, hin.undirNorm⟩
    refine ⟨?_, ?_, hrels.1, hrels.2.1, ?_, hrels.2.2⟩
    · exact ((List.filter_sublist s.entities).map (fun e => e.id)).nodup hin.entIds
    · exact ((List.filter_sublist s.entities).map (fun e => e.name)).nodup hin.entNames
    · intro a2 ha2
      obtain ⟨e, he, hei⟩ := hin.aliasRefs a2 ha2
      refine ⟨e, ?_, hei⟩
      apply List.mem_filter.2
      refine ⟨he, ?_⟩
      have hne : a2.entity_id ≠ arow.id := by
        have := hany a2 ha2
        simpa using this
      simp only [bne_iff_ne, ne_eq]
      rw [hei]
      exact hne

theorem mergeAllGo_inv (cn strat : String) :
    ∀ (aliases : List String) (st : Store) (merged : List String)
      (skipped : List (String × String)) (res : (List String × List (String × String)) × Store),
      mergeAllGo cn strat st merged skipped aliases = .ok res →
      Inv st → Inv res.2 := by
  intro aliases
  induction aliases with
  | nil =>
    intro st merged skipped res h hin
    simp only [mergeAllGo] at h
    injection h with h1
    rw [← h1]
    exact hin
  | cons a rest ih =>
    intro st merged skipped res h hin
    simp only [mergeAllGo] at h
    split at h
    · rename_i st2 hok
      exact ih _ _ _ _ h (merge_alias_inv hok hin)
    · rename_i e herr
      split at h
      · exact Except.noConfusion h
      · split at h
        · exact ih _ _ _ _ h hin
        · exact Except.noConfusion h

theorem merge_all_aliases_inv {s : Store} {cn strat : String}
    {res : (List String × List (String × String)) × Store}
    (h : merge_all_aliases s cn strat = .ok res) (hin : Inv s) : Inv res.2 := by
  simp only [merge_all_aliases] at h
  split at h
  · exact Except.noConfusion h
  · exact mergeAllGo_inv cn strat _ _ _ _ _ h hin

theorem delete_entity_inv {s s' : Store} {n : String} {c : Bool}
    (h : delete_entity s n c = .ok s') (hin : Inv s) : Inv s' := by
  simp only [delete_entity] at h
  split at h
  · exact Except.noConfusion h
  split at h
  · exact Except.noConfusion h
  rename_i row hrow
  split at h
  · exact Except.noConfusion h
  split at h
  · exact Except.noConfusion h
  injection h with h1
  subst h1
  refine ⟨?_, ?_, ?_, ?_, ?_, ?_⟩
  · exact ((List.filter_sublist s.entities).map (fun e => e.id)).nodup hin.entIds
  · exact ((List.filter_sublist s.entities).map (fun e => e.name)).nodup hin.entNames
  · exact ((List.filter_sublist s.relationships).map (fun r => r.id)).nodup hin.relIds
  · exact ((List.filter_sublist s.relationships).map
      (fun r => (r.source_id, r.target_id, r.directed))).nodup hin.relKeys
  · intro a2 ha2
    have ha2' := List.mem_filter.1 ha2
    obtain ⟨e, he, hei⟩ := hin.aliasRefs a2 ha2'.1
    refine ⟨e, List.mem_filter.2 ⟨he, ?_⟩, hei⟩
    have : a2.entity_id ≠ row.id := by simpa using ha2'.2
    simp only [bne_iff_ne, ne_eq]
    rw [hei]
    exact this
  · intro r hr
    exact hin.undirNorm r (List.mem_of_mem_filter hr)

theorem delete_relationship_inv {s s' : Store} {a b : String} {dOpt : Option Bool} {c : Bool}
    (h : delete_relationship s a b dOpt c = .ok s') (hin : Inv s) : Inv s' := by
  simp only [delete_relationship] at h
  split at h
  · exact Except.noConfusion h
  split at h
  · injection h with h1
    rw [← h1]
    exact hin
  split at h
  · exact Except.noConfusion h
  injection h with h1
  subst h1
  refine ⟨hin.entIds, hin.entNames, ?_, ?_, ?_, ?_⟩
  · exact ((List.filter_sublist s.relationships).map (fun r => r.id)).nodup hin.relIds
  · exact ((List.filter_sublist s.relationships).map
      (fun r => (r.source_id, r.target_id, r.directed))).nodup hin.relKeys
  · exact hin.aliasRefs
  · intro r hr
    exact hin.undirNorm r (List.mem_of_mem_filter hr)

theorem delete_alias_inv {s s' : Store} {en al : String}
    (h : delete_alias s en al = .ok s') (hin : Inv s) : Inv s' := by
  simp only [delete_alias] at h
  split at h
  · exact Except.noConfusion h
  split at h
  · exact Except.noConfusion h
  split at h
  · exact Except.noConfusion h
  split at h
  · exact Except.noConfusion h
  injection h with h1
  subst h1
  refine ⟨hin.entIds, hin.entNames, hin.relIds, hin.relKeys, ?_, hin.undirNorm⟩
  intro a2 ha2
  exact hin.aliasRefs a2 (List.mem_of_mem_filter ha2)

set_option maxHeartbeats 1000000 in
theorem delete_claim_frame {s s' : Store} {content entity_name : Option String}
    {rel : Option (String × String)} {source : Option String}
    {dr : Option (String × String)} {dOpt : Option Bool} {m : DeleteMode}
    (h : delete_claim s content entity_name rel source dr dOpt m = .ok s') :
    s'.entities = s.entities ∧ s'.aliases = s.aliases ∧
    s'.relationships = s.relationships := by
  simp only [delete_claim] at h
  split at h
  · exact Except.noConfusion h
  split at h
  · split at h <;> (injection h with h1; subst h1; exact ⟨rfl, rfl, rfl⟩)
  split at h
  · split at h <;> (injection h with h1; subst h1; exact ⟨rfl, rfl, rfl⟩)
  split at h
  · injection h with h1; subst h1; exact ⟨rfl, rfl, rfl⟩
  split at h
  · injection h with h1; subst h1; exact ⟨rfl, rfl, rfl⟩
  split at h
  · injection h with h1; subst h1; exact ⟨rfl, rfl, rfl⟩
  split at h
  · repeat' first
      | (injection h with h1; subst h1; exact ⟨rfl, rfl, rfl⟩)
      | split at h
  · exact Except.noConfusion h

theorem delete_claim_inv {s s' : Store} {content entity_name : Option String}
    {rel : Option (String × String)} {source : Option String}
    {dr : Option (String × String)} {dOpt : Option Bool} {m : DeleteMode}
    (h : delete_claim s content entity_name rel source dr dOpt m = .ok s') (hin : Inv s) :
    Inv s' := by
  obtain ⟨he, ha, hr⟩ := delete_claim_frame h
  exact inv_of_frame hin he ha hr

theorem drop_inv (s : Store) : Inv (drop s) := by
  refine ⟨?_, ?_, ?_, ?_, ?_, ?_⟩ <;> simp [drop, Store.empty]

/-- Every reachable store satisfies the schema invariants. -/
theorem reachable_inv {s : Store} (h : Reachable s) : Inv s := by
  induction h with
  | init =>
    refine ⟨?_, ?_, ?_, ?_, ?_, ?_⟩ <;> simp [Store.empty]
  | step_upsert_entity n ty _ ih => exact upsert_entity_inv n ty ih
  | step_upsert_alias en al _ heq ih => exact upsert_alias_inv heq ih
  | step_upsert_relationship a b w d _ heq ih => exact upsert_relationship_inv ih heq
  | step_upsert_claim content source entity_name rel now _ heq ih =>
    exact upsert_claim_inv heq ih
  | step_merge_alias cn an _ heq ih => exact merge_alias_inv heq ih
  | step_merge_all cn strat _ heq ih => exact merge_all_aliases_inv heq ih
  | step_delete_entity n c _ heq ih => exact delete_entity_inv heq ih
  | step_delete_relationship a b dOpt c _ heq ih => exact delete_relationship_inv heq ih
  | step_delete_alias en al _ heq ih => exact delete_alias_inv heq ih
  | step_delete_claim content entity_name rel source dr dOpt m _ heq ih =>
    exact delete_claim_inv heq ih
  | step_drop _ _ => exact drop_inv _

/-- `upsert_alias("B","C")` then `upsert_alias("A","B")` both succeed and
produce `demoStore`. -/
theorem reachable_demoStore : Reachable demoStore :=
  Reachable.step_upsert_alias "A" "B"
    (Reachable.step_upsert_alias "B" "C" Reachable.init
      (show upsert_alias Store.empty "B" "C" =
        .ok (1, ⟨[⟨1, "B", none⟩], [⟨1, 1, "C"⟩], [], []⟩) from rfl))
    (show upsert_alias ⟨[⟨1, "B", none⟩], [⟨1, 1, "C"⟩], [], []⟩ "A" "B" =
      .ok (2, demoStore) from rfl)

theorem reachable_relStore2 : Reachable relStore2 :=
  Reachable.step_upsert_relationship "Mexico" "FBI" ((9 : Rat)/10) false
    (Reachable.step_upsert_relationship "FBI" "Mexico" ((1 : Rat)/2) false Reachable.init
      (show upsert_relationship Store.empty "FBI" "Mexico" ((1 : Rat)/2) false =
        .ok (1, relStore1) from rfl))
    (show upsert_relationship relStore1 "Mexico" "FBI" ((9 : Rat)/10) false =
      .ok (1, relStore2) from rfl)

theorem reachable_unsortedStore : Reachable unsortedStore :=
  Reachable.step_upsert_alias "E" "a"
    (Reachable.step_upsert_alias "E" "b" Reachable.init
      (show upsert_alias Store.empty "E" "b" =
        .ok (1, ⟨[⟨1, "E", none⟩], [⟨1, 1, "b"⟩], [], []⟩) from rfl))
    (show upsert_alias ⟨[⟨1, "E", none⟩], [⟨1, 1, "b"⟩], [], []⟩ "E" "a" =
      .ok (2, unsortedStore) from rfl)

/-- C1: the invariant P1 fails on the code.  Two legal `upsert_alias` calls —
the second aliasing an existing canonical that already has an alias of its
own — build the chain C -> B -> A, on which `resolve_alias` is not
idempotent: `resolve_alias("C") = "B"` but `resolve_alias("B") = "A"`. -/
theorem C1_alias_chain_violation :
    Reachable demoStore ∧
    (findAliasRow demoStore "C").isSome = true ∧
    resolve_alias demoStore "C" = "B" ∧
    resolve_alias demoStore (resolve_alias demoStore "C") = "A" ∧
    resolve_alias demoStore (resolve_alias demoStore "C") ≠ resolve_alias demoStore "C" :=
  ⟨reachable_demoStore, rfl, rfl, rfl, by decide⟩

/-- C3: in every store reachable through the public operations, undirected
relationship rows are stored normalized with `source_id < target_id`. -/
theorem C3_undirected_normalized (s : Store) (h : Reachable s) :
    ∀ r ∈ s.relationships, r.directed = false → r.source_id < r.target_id :=
  (reachable_inv h).undirNorm

/-- Witness for C3 on a store holding an undirected row inserted in swapped
order. -/
theorem C3_undirected_normalized_witness :
    Reachable relStore2 ∧
    ∀ r ∈ relStore2.relationships, r.directed = false → r.source_id < r.target_id :=
  ⟨reachable_relStore2, C3_undirected_normalized relStore2 reachable_relStore2⟩

/-- C2, counterexample: `load_aliases` has no `ORDER BY`, so after inserting
aliases `b` then `a` it returns them in insertion order `["b","a"]`, which is
not sorted. -/
theorem C2_load_aliases_counterexample :
    Reachable unsortedStore ∧
    load_aliases unsortedStore "E" = .ok ["b", "a"] ∧
    ¬ List.Pairwise (fun x y => strLe x y = true) ["b", "a"] ∧
    list_all_aliases unsortedStore "E" = .ok ["a", "b"] :=
  ⟨reachable_unsortedStore, rfl, by decide, rfl⟩

/-- C2 amended: `load_aliases(name)` returns the alias strings of
`canonical(name)` in storage (insertion) order — the same multiset that
`list_all_aliases` returns sorted — and raises `EntityNotFoundError` on the
canonical when the canonical entity does not exist. -/
theorem C2_load_aliases_amended (s : Store) (name : String) :
    (findEntityByName s (resolve_alias s name) = none →
      load_aliases s name = .error (.entityNotFound (resolve_alias s name) none)) ∧
    (∀ e, findEntityByName s (resolve_alias s name) = some e →
      load_aliases s name =
        .ok ((s.aliases.filter (fun a => a.entity_id == e.id)).map (fun a => a.alias_name))) ∧
    list_all_aliases s name = (load_aliases s name).map sortStrs := by
  refine ⟨?_, ?_, ?_⟩
  · intro h
    simp only [load_aliases]
    rw [h]
  · intro e h
    simp only [load_aliases]
    rw [h]
  · simp only [load_aliases, list_all_aliases]
    cases h : findEntityByName s (resolve_alias s name) <;> rfl

/-- Witness for C2 amended, instantiated on the unsorted store. -/
theorem C2_load_aliases_amended_witness :
    (findEntityByName unsortedStore (resolve_alias unsortedStore "E") = none →
      load_aliases unsortedStore "E" =
        .error (.entityNotFound (resolve_alias unsortedStore "E") none)) ∧
    (∀ e, findEntityByName unsortedStore (resolve_alias unsortedStore "E") = some e →
      load_aliases unsortedStore "E" =
        .ok ((unsortedStore.aliases.filter (fun a => a.entity_id == e.id)).map
          (fun a => a.alias_name))) ∧
    list_all_aliases unsortedStore "E" = (load_aliases unsortedStore "E").map sortStrs :=
  C2_load_aliases_amended unsortedStore "E"

/-- With a duplicate-free key column, `find?` by a member's key returns that
member. -/
theorem find?_of_nodup_key {α κ : Type} [DecidableEq κ] (k : α → κ) {l : List α}
    (h : (l.map k).Nodup) {x : α} (hx : x ∈ l) :
    l.find? (fun y => decide (k y = k x)) = some x := by
  apply filter_singleton_find?
  apply filter_key_singleton (k := k) h hx
  intro y
  simp

/-- C5: after a successful `merge_alias(cn, an)` where `an` existed as an
Entity, the alias entity row is gone, the alias mapping table is untouched,
and `resolve_alias(an)` still returns the canonical. -/
theorem C5_merge_keeps_mapping (s s' : Store) (cn an : String)
    (hids : (s.entities.map (fun e => e.id)).Nodup)
    (hnames : (s.entities.map (fun e => e.name)).Nodup)
    (hne : an ≠ cn)
    (ha : (findEntityByName s an).isSome = true)
    (hok : merge_alias s cn an = .ok s') :
    findEntityByName s' an = none ∧
    s'.aliases = s.aliases ∧
    resolve_alias s' an = cn := by
  obtain ⟨crow, hcrow, am, ham, hameq, hcase⟩ := merge_alias_ok_cases hok
  rcases hcase with ⟨hnone, _⟩ | ⟨arow, relsClaims, harow, hmerge, hany, rfl⟩
  · rw [hnone] at ha
    simp at ha
  · have hcname : crow.name = cn := findEntityByName_name hcrow
    have haname : arow.name = an := findEntityByName_name harow
    have hidne : crow.id ≠ arow.id := by
      intro hc
      apply hne
      have := ent_eq_of_id_eq hids (findEntityByName_mem hcrow) (findEntityByName_mem harow) hc
      rw [← haname, ← this, hcname]
    refine ⟨?_, rfl, ?_⟩
    · cases hf : findEntityByName
        ({ s with
           relationships := relsClaims.1
           claims := relsClaims.2.map (fun c =>
             if c.entity_id == some arow.id then { c with entity_id := some crow.id } else c)
           entities := s.entities.filter (fun e => e.id != arow.id) } : Store) an with
      | none => rfl
      | some e =>
        exfalso
        have hmem : e ∈ s.entities.filter (fun e2 => e2.id != arow.id) :=
          findEntityByName_mem hf
        have hmem2 := List.mem_filter.1 hmem
        have hename : e.name = an := findEntityByName_name hf
        have : e = arow := by
          apply ent_eq_of_name_eq hnames hmem2.1 (findEntityByName_mem harow)
          rw [hename, haname]
        rw [this] at hmem2
        simp at hmem2
    · have hfa : findAliasRow
          ({ s with
             relationships := relsClaims.1
             claims := relsClaims.2.map (fun c =>
               if c.entity_id == some arow.id then { c with entity_id := some crow.id } else c)
             entities := s.entities.filter (fun e => e.id != arow.id) } : Store) an = some am := ham
      rw [resolve_alias_of_aliasRow hfa]
      have hmemf : crow ∈ s.entities.filter (fun e => e.id != arow.id) := by
        apply List.mem_filter.2
        refine ⟨findEntityByName_mem hcrow, ?_⟩
        simpa using hidne
      have hfid : findEntityById
          ({ s with
             relationships := relsClaims.1
             claims := relsClaims.2.map (fun c =>
               if c.entity_id == some arow.id then { c with entity_id := some crow.id } else c)
             entities := s.entities.filter (fun e => e.id != arow.id) } : Store) am.entity_id = some crow := by
        show (s.entities.filter (fun e => e.id != arow.id)).find?
          (fun e => e.id == am.entity_id) = some crow
        rw [hameq]
        have hsub : ((s.entities.filter (fun e => e.id != arow.id)).map (fun e => e.id)).Nodup :=
          ((List.filter_sublist s.entities).map (fun e => e.id)).nodup hids
        exact find?_of_nodup_key (fun e : Entity => e.id) hsub hmemf
      rw [hfid]
      exact hcname

/-- Witness for C5 on the two-entity store with `B` aliased to `A`. -/
theorem C5_merge_keeps_mapping_witness :
    (mergeStore.entities.map (fun e => e.id)).Nodup ∧
    (mergeStore.entities.map (fun e => e.name)).Nodup ∧
    "B" ≠ "A" ∧
    (findEntityByName mergeStore "B").isSome = true ∧
    merge_alias mergeStore "A" "B" = .ok ⟨[⟨1, "A", none⟩], [⟨1, 1, "B"⟩], [], []⟩ ∧
    (findEntityByName (⟨[⟨1, "A", none⟩], [⟨1, 1, "B"⟩], [], []⟩ : Store) "B" = none ∧
     (⟨[⟨1, "A", none⟩], [⟨1, 1, "B"⟩], [], []⟩ : Store).aliases = mergeStore.aliases ∧
     resolve_alias (⟨[⟨1, "A", none⟩], [⟨1, 1, "B"⟩], [], []⟩ : Store) "B" = "A") :=
  ⟨by decide, by decide, by decide, rfl, rfl,
   C5_merge_keeps_mapping mergeStore ⟨[⟨1, "A", none⟩], [⟨1, 1, "B"⟩], [], []⟩ "A" "B"
     (by decide) (by decide) (by decide) (by decide) rfl⟩

/-- `mergeRels` fails only with `RelationshipMergeConflict`. -/
theorem mergeRels_error (cid aid : Nat) (cn an : String) :
    ∀ (qs : List RelRow) (acc : List RelRow × List ClaimRow) (e : Err),
      mergeRels cid aid cn an qs acc = .error e →
      e = .relationshipMergeConflict cn an := by
  intro qs
  induction qs with
  | nil =>
    intro acc e h
    simp only [mergeRels] at h
    exact Except.noConfusion h
  | cons q qs ih =>
    intro acc e h
    obtain ⟨rels, claims⟩ := acc
    simp only [mergeRels] at h
    generalize hns : (if (q.source_id == aid) = true then cid else q.source_id) = ns at h
    generalize hnt : (if (q.target_id == aid) = true then cid else q.target_id) = nt at h
    split at h
    · injection h with h1
      exact h1.symm
    · split at h
      · exact ih _ _ h
      · exact ih _ _ h

/-- C6, counterexample: `"B"` is simultaneously an Entity row and an alias of
`"A"` in a reachable store, yet `merge_alias("B","C")` succeeds instead of
raising `EntityNotFoundError`: the alias check runs only when the canonical
row is missing. -/
theorem C6_merge_hint_counterexample :
    Reachable demoStore ∧
    resolve_alias demoStore "B" = "A" ∧
    "A" ≠ "B" ∧
    (findEntityByName demoStore "B").isSome = true ∧
    merge_alias demoStore "B" "C" = .ok demoStore :=
  ⟨reachable_demoStore, rfl, by decide, rfl, rfl⟩

/-- C6 amended: the hinted `EntityNotFoundError` fires exactly when
`canonical_name` has no Entity row and resolves elsewhere; when an Entity row
exists the merge path never raises `EntityNotFoundError` at all, even if
`canonical_name` is also registered as an alias. -/
theorem C6_merge_hint_amended (s : Store) (cn an : String) :
    (findEntityByName s cn = none → resolve_alias s cn ≠ "" → resolve_alias s cn ≠ cn →
      merge_alias s cn an = .error (.entityNotFound cn (some (resolve_alias s cn)))) ∧
    (∀ e, findEntityByName s cn = some e →
      ∀ hint, merge_alias s cn an ≠ .error (.entityNotFound cn hint)) := by
  constructor
  · intro hnone hne1 hne2
    simp only [merge_alias]
    rw [hnone]
    rw [if_pos]
    simp only [Bool.and_eq_true, bne_iff_ne, ne_eq]
    exact ⟨by simpa using hne1, by simpa using hne2⟩
  · intro e he hint hc
    simp only [merge_alias] at hc
    rw [he] at hc
    split at hc
    · rename_i heq
      exact Option.noConfusion heq
    · rename_i crow heq
      split at hc
      · simp at hc
      · rename_i am ham
        split at hc
        · simp at hc
        · split at hc
          · exact Except.noConfusion hc
          · rename_i arow harow
            split at hc
            · rename_i e2 hmerge
              have he2 := mergeRels_error _ _ _ _ _ _ _ hmerge
              subst he2
              simp at hc
            · rename_i rels2 claims2 hmerge
              split at hc
              · simp at hc
              · exact Except.noConfusion hc

/-- Witness for C6 amended: the hinted error on a store where `"B"` is only
an alias, and the absence of `EntityNotFoundError` on `demoStore` where `"B"`
is an Entity row as well. -/
theorem C6_merge_hint_amended_witness :
    merge_alias oneAliasStore "B" "C" = .error (.entityNotFound "B" (some "A")) ∧
    (∀ hint, merge_alias demoStore "B" "C" ≠ .error (.entityNotFound "B" hint)) :=
  ⟨(C6_merge_hint_amended oneAliasStore "B" "C").1 rfl (by decide) (by decide),
   fun hint => (C6_merge_hint_amended demoStore "B" "C").2 ⟨1, "B", none⟩ rfl hint⟩

/-- C7: with cascade on, `delete_entity` removes exactly the relationship
rows incident on the canonical id (and their claims), the canonical's own
claims, its alias mappings, and the canonical row; relationships and entity
rows of alias-entities survive. -/
theorem C7_delete_entity_frame (s s' : Store) (name : String) (crow : Entity)
    (hrelIds : (s.relationships.map (fun r => r.id)).Nodup)
    (hfind : findEntityByName s name = some crow)
    (hok : delete_entity s name true = .ok s') :
    (∀ e : Entity, e ∈ s'.entities ↔ e ∈ s.entities ∧ e.id ≠ crow.id) ∧
    (∀ r : RelRow, r ∈ s'.relationships ↔
      r ∈ s.relationships ∧ ¬(r.source_id = crow.id ∨ r.target_id = crow.id)) ∧
    (∀ c : ClaimRow, c ∈ s'.claims ↔
      c ∈ s.claims ∧ c.entity_id ≠ some crow.id ∧
      ¬∃ r ∈ s.relationships, (r.source_id = crow.id ∨ r.target_id = crow.id) ∧
        c.relationship_id = some r.id) ∧
    (∀ a : AliasRow, a ∈ s'.aliases ↔ a ∈ s.aliases ∧ a.entity_id ≠ crow.id) := by
  have hcont : ∀ i : Nat,
      (((s.relationships.filter (fun r => r.source_id == crow.id || r.target_id == crow.id)).map
        (fun r => r.id)).contains i = true) ↔
      ∃ q ∈ s.relationships, (q.source_id = crow.id ∨ q.target_id = crow.id) ∧ q.id = i := by
    intro i
    rw [List.elem_iff]
    simp [List.mem_map, List.mem_filter]
    constructor
    · rintro ⟨q, ⟨hq, hpred⟩, hqid⟩
      exact ⟨q, hq, by simpa using hpred, hqid⟩
    · rintro ⟨q, hq, hpred, hqid⟩
      exact ⟨q, ⟨hq, by simpa using hpred⟩, hqid⟩
  simp only [delete_entity] at hok
  split at hok
  · exact Except.noConfusion hok
  rename_i hname
  split at hok
  · exact Except.noConfusion hok
  rename_i crow2 hfind2
  have hres : resolve_alias s name = name := by
    have h2 : name = resolve_alias s name := by simpa [bne_iff_ne] using hname
    exact h2.symm
  rw [hres] at hfind2
  have hcrow2 : crow2 = crow := by
    rw [hfind] at hfind2
    injection hfind2 with h1
    exact h1.symm
  subst crow2
  split at hok
  · exact Except.noConfusion hok
  split at hok
  · rename_i hguard
    simp at hguard
  injection hok with h1
  subst h1
  refine ⟨?_, ?_, ?_, ?_⟩
  · intro e
    show e ∈ s.entities.filter (fun e2 => e2.id != crow.id) ↔ _
    simp [List.mem_filter]
  · intro r
    show r ∈ s.relationships.filter (fun r2 =>
      !((s.relationships.filter (fun r3 => r3.source_id == crow.id || r3.target_id == crow.id)).map
        (fun r3 => r3.id)).contains r2.id) ↔ _
    rw [List.mem_filter]
    constructor
    · rintro ⟨hr, hnc⟩
      refine ⟨hr, ?_⟩
      intro hpred
      have : (((s.relationships.filter (fun r3 => r3.source_id == crow.id || r3.target_id == crow.id)).map
          (fun r3 => r3.id)).contains r.id = true) := (hcont r.id).2 ⟨r, hr, hpred, rfl⟩
      rw [this] at hnc
      exact Bool.noConfusion hnc
    · rintro ⟨hr, hpred⟩
      refine ⟨hr, ?_⟩
      rw [Bool.not_eq_true']
      rw [← Bool.not_eq_true]
      intro hc
      obtain ⟨q, hq, hqpred, hqid⟩ := (hcont r.id).1 hc
      have : q = r := List.inj_on_of_nodup_map hrelIds hq hr hqid
      subst this
      exact hpred hqpred
  · intro c
    show c ∈ (s.claims.filter (fun c2 =>
        match c2.relationship_id with
        | some rid => !((s.relationships.filter (fun r3 => r3.source_id == crow.id || r3.target_id == crow.id)).map
            (fun r3 => r3.id)).contains rid
        | none => true)).filter (fun c2 => c2.entity_id != some crow.id) ↔ _
    rw [List.mem_filter, List.mem_filter]
    constructor
    · rintro ⟨⟨hc, hmr⟩, hce⟩
      refine ⟨hc, by simpa using hce, ?_⟩
      rintro ⟨r, hr, hrpred, hcr⟩
      rw [hcr] at hmr
      simp only [] at hmr
      have : (((s.relationships.filter (fun r3 => r3.source_id == crow.id || r3.target_id == crow.id)).map
          (fun r3 => r3.id)).contains r.id = true) := (hcont r.id).2 ⟨r, hr, hrpred, rfl⟩
      rw [this] at hmr
      exact Bool.noConfusion hmr
    · rintro ⟨hc, hce, hnr⟩
      refine ⟨⟨hc, ?_⟩, by simpa using hce⟩
      cases hrid : c.relationship_id with
      | none => rfl
      | some rid =>
        simp only []
        rw [Bool.not_eq_true']
        rw [← Bool.not_eq_true]
        intro hcontains
        obtain ⟨q, hq, hqpred, hqid⟩ := (hcont rid).1 hcontains
        exact hnr ⟨q, hq, hqpred, by rw [hrid, hqid]⟩
  · intro a
    show a ∈ s.aliases.filter (fun a2 => a2.entity_id != crow.id) ↔ _
    simp [List.mem_filter]

/-- Witness for C7: deleting canonical `A` keeps the `B`—`X` relationship and
the alias-entity `B` itself. -/
theorem C7_delete_entity_frame_witness :
    (frameStore.relationships.map (fun r => r.id)).Nodup ∧
    findEntityByName frameStore "A" = some ⟨3, "A", none⟩ ∧
    delete_entity frameStore "A" true =
      .ok ⟨[⟨1, "B", none⟩, ⟨2, "X", none⟩], [], [⟨1, 1, 2, 1, false⟩], []⟩ ∧
    ((⟨1, 1, 2, 1, false⟩ : RelRow) ∈
        (⟨[⟨1, "B", none⟩, ⟨2, "X", none⟩], [], [⟨1, 1, 2, 1, false⟩], []⟩ : Store).relationships ↔
      (⟨1, 1, 2, 1, false⟩ : RelRow) ∈ frameStore.relationships ∧ ¬((1 : Nat) = 3 ∨ (2 : Nat) = 3)) ∧
    ((⟨1, "B", none⟩ : Entity) ∈
        (⟨[⟨1, "B", none⟩, ⟨2, "X", none⟩], [], [⟨1, 1, 2, 1, false⟩], []⟩ : Store).entities ↔
      (⟨1, "B", none⟩ : Entity) ∈ frameStore.entities ∧ (1 : Nat) ≠ 3) :=
  ⟨by decide, rfl, rfl,
   (C7_delete_entity_frame frameStore
     ⟨[⟨1, "B", none⟩, ⟨2, "X", none⟩], [], [⟨1, 1, 2, 1, false⟩], []⟩ "A" ⟨3, "A", none⟩
     (by decide) rfl rfl).2.1 ⟨1, 1, 2, 1, false⟩,
   (C7_delete_entity_frame frameStore
     ⟨[⟨1, "B", none⟩, ⟨2, "X", none⟩], [], [⟨1, 1, 2, 1, false⟩], []⟩ "A" ⟨3, "A", none⟩
     (by decide) rfl rfl).1 ⟨1, "B", none⟩⟩

/-- After deleting every matched row, re-running the alias-expanded match on
the shrunk table finds nothing: alias expansion reads only the untouched
entity and alias tables, and every still-matching row would have been in the
deleted id set. -/
theorem rie_deleted_empty (s : Store) (M : List Nat) (Cf : List ClaimRow)
    (x y : String) (dir : Bool)
    (hsub : ∀ i ∈ relationship_ids_alias_expanded s x y dir, i ∈ M) :
    relationship_ids_alias_expanded
      { s with
        claims := Cf
        relationships := s.relationships.filter (fun r => !M.contains r.id) } x y dir = [] := by
  have hfr : relationship_ids_alias_expanded
      { s with
        claims := Cf
        relationships := s.relationships.filter (fun r => !M.contains r.id) } x y dir =
      (match expand_ids s (resolve_alias s x), expand_ids s (resolve_alias s y) with
       | .ok src_ids, .ok tgt_ids =>
         if dir then
           ((s.relationships.filter (fun r => !M.contains r.id)).filter (fun r =>
             r.directed == true && src_ids.contains r.source_id &&
               tgt_ids.contains r.target_id)).map (fun r => r.id)
         else
           ((s.relationships.filter (fun r => !M.contains r.id)).filter (fun r =>
             r.directed == false &&
               ((src_ids.contains r.source_id && tgt_ids.contains r.target_id) ||
                (tgt_ids.contains r.source_id && src_ids.contains r.target_id)))).map
             (fun r => r.id)
       | _, _ => []) := rfl
  rw [hfr]
  cases hx : expand_ids s (resolve_alias s x) with
  | error e => rfl
  | ok src_ids =>
    cases hy : expand_ids s (resolve_alias s y) with
    | error e => rfl
    | ok tgt_ids =>
      cases dir with
      | true =>
        show (List.map _ (List.filter _ (s.relationships.filter _))) = []
        rw [List.map_eq_nil_iff]
        apply List.filter_eq_nil_iff.2
        intro r hr hp
        have hr2 := List.mem_filter.1 hr
        have hmem : r.id ∈ relationship_ids_alias_expanded s x y true := by
          unfold relationship_ids_alias_expanded
          rw [hx, hy]
          exact List.mem_map.2 ⟨r, List.mem_filter.2 ⟨hr2.1, hp⟩, rfl⟩
        have := hsub r.id hmem
        have hcon : M.contains r.id = true := List.elem_iff.2 this
        have := hr2.2
        rw [hcon] at this
        exact Bool.noConfusion this
      | false =>
        show (List.map _ (List.filter _ (s.relationships.filter _))) = []
        rw [List.map_eq_nil_iff]
        apply List.filter_eq_nil_iff.2
        intro r hr hp
        have hr2 := List.mem_filter.1 hr
        have hmem : r.id ∈ relationship_ids_alias_expanded s x y false := by
          unfold relationship_ids_alias_expanded
          rw [hx, hy]
          exact List.mem_map.2 ⟨r, List.mem_filter.2 ⟨hr2.1, hp⟩, rfl⟩
        have := hsub r.id hmem
        have hcon : M.contains r.id = true := List.elem_iff.2 this
        have := hr2.2
        rw [hcon] at this
        exact Bool.noConfusion this

/-- C8: `delete_relationship` is idempotent.  An empty alias-expanded match is
a raising-free no-op, and repeating a successful call leaves the store of the
first call untouched. -/
theorem C8_delete_relationship_idempotent (s : Store) (a b : String)
    (dOpt : Option Bool) (c : Bool) :
    (resolve_alias s a ≠ resolve_alias s b →
      deleteMatchIds s (resolve_alias s a) (resolve_alias s b) dOpt = [] →
      delete_relationship s a b dOpt c = .ok s) ∧
    (∀ s', delete_relationship s a b dOpt c = .ok s' →
      delete_relationship s' a b dOpt c = .ok s') := by
  constructor
  · intro hne hempty
    simp only [delete_relationship]
    rw [if_neg (by simpa using hne)]
    rw [hempty]
    rfl
  · intro s' h
    simp only [delete_relationship] at h
    split at h
    · exact Except.noConfusion h
    rename_i hne
    split at h
    · rename_i hemp
      injection h with h1
      subst h1
      simp only [delete_relationship]
      rw [if_neg hne, if_pos hemp]
    rename_i hnonempty
    split at h
    · exact Except.noConfusion h
    injection h with h1
    subst h1
    have hra : resolve_alias
        { s with
          claims := s.claims.filter (fun c2 =>
            match c2.relationship_id with
            | some rid => !(deleteMatchIds s (resolve_alias s a) (resolve_alias s b) dOpt).contains rid
            | none => true)
          relationships := s.relationships.filter (fun r =>
            !(deleteMatchIds s (resolve_alias s a) (resolve_alias s b) dOpt).contains r.id) } a
        = resolve_alias s a := rfl
    have hrb : resolve_alias
        { s with
          claims := s.claims.filter (fun c2 =>
            match c2.relationship_id with
            | some rid => !(deleteMatchIds s (resolve_alias s a) (resolve_alias s b) dOpt).contains rid
            | none => true)
          relationships := s.relationships.filter (fun r =>
            !(deleteMatchIds s (resolve_alias s a) (resolve_alias s b) dOpt).contains r.id) } b
        = resolve_alias s b := rfl
    simp only [delete_relationship]
    rw [hra, hrb]
    rw [if_neg hne]
    have hempty : deleteMatchIds
        { s with
          claims := s.claims.filter (fun c2 =>
            match c2.relationship_id with
            | some rid => !(deleteMatchIds s (resolve_alias s a) (resolve_alias s b) dOpt).contains rid
            | none => true)
          relationships := s.relationships.filter (fun r =>
            !(deleteMatchIds s (resolve_alias s a) (resolve_alias s b) dOpt).contains r.id) }
        (resolve_alias s a) (resolve_alias s b) dOpt = [] := by
      cases dOpt with
      | none =>
        show _ ++ _ ++ _ = ([] : List Nat)
        rw [rie_deleted_empty s _ _ _ _ _ (fun i hi => by
            exact List.mem_append_left _ (List.mem_append_left _ hi)),
          rie_deleted_empty s _ _ _ _ _ (fun i hi => by
            exact List.mem_append_left _ (List.mem_append_right _ hi)),
          rie_deleted_empty s _ _ _ _ _ (fun i hi => by
            exact List.mem_append_right _ hi)]
        rfl
      | some dv =>
        cases dv with
        | true =>
          exact rie_deleted_empty s _ _ _ _ _ (fun i hi => hi)
        | false =>
          exact rie_deleted_empty s _ _ _ _ _ (fun i hi => hi)
    rw [hempty]
    rfl

/-- Witness for C8 on the FBI—Mexico store: deleting the single undirected
edge succeeds, and repeating the call is a no-op on the resulting store. -/
theorem C8_delete_relationship_idempotent_witness :
    delete_relationship relStore2 "FBI" "Mexico" none true =
      .ok ⟨[⟨1, "FBI", none⟩, ⟨2, "Mexico", none⟩], [], [], []⟩ ∧
    delete_relationship (⟨[⟨1, "FBI", none⟩, ⟨2, "Mexico", none⟩], [], [], []⟩ : Store)
      "FBI" "Mexico" none true =
      .ok ⟨[⟨1, "FBI", none⟩, ⟨2, "Mexico", none⟩], [], [], []⟩ :=
  ⟨rfl,
   (C8_delete_relationship_idempotent relStore2 "FBI" "Mexico" none true).2
     ⟨[⟨1, "FBI", none⟩, ⟨2, "Mexico", none⟩], [], [], []⟩ rfl⟩

/-- The only error `upsert_relationship` raises is the self-collision, and it
happens exactly when the two endpoints resolve to the same canonical. -/
theorem upsert_relationship_error_shape (s : Store) (a b : String) (st : Rat)
    (d : Bool) (e : Err)
    (h : upsert_relationship s a b st d = .error e) :
    e = .relationshipCollision a b ∧ resolve_alias s a = resolve_alias s b := by
  simp only [upsert_relationship] at h
  split at h
  · rename_i hc
    injection h with h1
    exact ⟨h1.symm, by simpa using hc⟩
  · split at h <;> exact Except.noConfusion h

/-- C9 counterexample: with a well-formed owner set (no entity name, exactly
one relationship owner), `upsert_claim` can still fail to insert a row: the
relationship upsert raises `RelationshipCollisionError` when the endpoints
resolve to the same canonical, so no claim id is returned. -/
theorem C9_upsert_claim_counterexample :
    truthyName (none : Option String) = false ∧
    (some (⟨"A", "A", 0, false⟩ : RelationshipRecord)).isSome = true ∧
    upsert_claim Store.empty "claim" none none (some ⟨"A", "A", 0, false⟩) "t" =
      .error (.relationshipCollision "A" "A") :=
  ⟨rfl, rfl, rfl⟩

/-- C9 (amended): `upsert_claim` raises `ValueError` iff the owners are
malformed under Python truthiness (both a truthy entity name and a
relationship, or neither).  With exactly one owner it never raises
`ValueError`: the entity path always inserts a row and returns its id; the
relationship path does so when the relationship upsert succeeds, and
propagates its `RelationshipCollisionError` (inserting nothing) when the two
endpoints resolve to the same canonical. -/
theorem C9_upsert_claim_owner_validation (s : Store) (content : String)
    (source : Option String) (ename : Option String)
    (rel : Option RelationshipRecord) (now : String) :
    ((∃ m, upsert_claim s content source ename rel now = .error (.valueError m)) ↔
      ((truthyName ename && rel.isSome) || (!truthyName ename && rel.isNone)) = true) ∧
    (∀ R rid s1, truthyName ename = false → rel = some R →
      upsert_relationship s R.source_name R.target_name R.strength R.directed = .ok (rid, s1) →
      upsert_claim s content source ename rel now =
        .ok (freshId (s1.claims.map (fun x => x.id)),
          { s1 with claims := s1.claims ++
            [⟨freshId (s1.claims.map (fun x => x.id)), none, some rid, content, source, now⟩] })) ∧
    (∀ R e, truthyName ename = false → rel = some R →
      upsert_relationship s R.source_name R.target_name R.strength R.directed = .error e →
      upsert_claim s content source ename rel now = .error e ∧
        ∃ x y, e = .relationshipCollision x y ∧
          resolve_alias s x = resolve_alias s y) ∧
    (truthyName ename = true → rel = none →
      upsert_claim s content source ename rel now =
        .ok (freshId ((upsert_entity s (ename.getD "") none).2.claims.map (fun x => x.id)),
          { (upsert_entity s (ename.getD "") none).2 with claims :=
            (upsert_entity s (ename.getD "") none).2.claims ++
            [⟨freshId ((upsert_entity s (ename.getD "") none).2.claims.map (fun x => x.id)),
              some (upsert_entity s (ename.getD "") none).1, none, content, source, now⟩] })) := by
  refine ⟨?_, ?_, ?_, ?_⟩
  · constructor
    · rintro ⟨m, hm⟩
      cases hrel : rel with
      | none =>
        cases htn : truthyName ename with
        | false => simp [htn, hrel]
        | true =>
          subst hrel
          rw [show upsert_claim s content source ename none now =
              .ok (freshId ((upsert_entity s (ename.getD "") none).2.claims.map (fun x => x.id)),
                { (upsert_entity s (ename.getD "") none).2 with claims :=
                  (upsert_entity s (ename.getD "") none).2.claims ++
                  [⟨freshId ((upsert_entity s (ename.getD "") none).2.claims.map (fun x => x.id)),
                    some (upsert_entity s (ename.getD "") none).1, none, content, source, now⟩] })
            from by simp [upsert_claim, htn]] at hm
          exact Except.noConfusion hm
      | some R =>
        cases htn : truthyName ename with
        | true => simp [htn, hrel]
        | false =>
          subst hrel
          simp only [upsert_claim, htn, Option.isSome_some, Option.isNone_some,
            Bool.false_and, Bool.not_false, Bool.true_and, Bool.and_false,
            if_false, Bool.false_eq_true, ite_false] at hm
          cases hur : upsert_relationship s R.source_name R.target_name
              R.strength R.directed with
          | error e =>
            rw [hur] at hm
            injection hm with h1
            obtain ⟨h2, -⟩ := upsert_relationship_error_shape s _ _ _ _ e hur
            subst h2
            exact Err.noConfusion h1
          | ok p =>
            rw [hur] at hm
            exact Except.noConfusion hm
    · intro hmal
      rcases Bool.or_eq_true_iff.1 hmal with hb | hb
      · obtain ⟨h1, h2⟩ := Bool.and_eq_true_iff.1 hb
        refine ⟨"Claim cannot be associated with both entity and relationship", ?_⟩
        simp [upsert_claim, h1, h2]
      · obtain ⟨h1, h2⟩ := Bool.and_eq_true_iff.1 hb
        refine ⟨"Claim must be associated with either entity or relationship", ?_⟩
        have h1a : truthyName ename = false := by simpa using h1
        simp [upsert_claim, h1a, Option.isNone_iff_eq_none.1 h2]
  · intro R rid s1 htn hrel hur
    subst hrel
    simp [upsert_claim, htn, hur]
  · intro R e htn hrel hur
    subst hrel
    obtain ⟨h2, h3⟩ := upsert_relationship_error_shape s _ _ _ _ e hur
    refine ⟨?_, R.source_name, R.target_name, h2, h3⟩
    simp [upsert_claim, htn, hur]
  · intro htn hrel
    subst hrel
    simp [upsert_claim, htn]

/-- Witness for the amended C9: the entity path on the empty store inserts
the claim row and returns its id. -/
theorem C9_upsert_claim_owner_validation_witness :
    truthyName (some "E") = true ∧
    upsert_claim Store.empty "c" none (some "E") none "t" =
      .ok (1, { entities := [⟨1, "E", none⟩], aliases := [], relationships := [],
                claims := [⟨1, some 1, none, "c", none, "t"⟩] }) :=
  ⟨rfl,
   (C9_upsert_claim_owner_validation Store.empty "c" none (some "E") none "t").2.2.2
     rfl rfl⟩

/-- With a strategy that is neither known value, `mergeAllGo` returns the
accumulated merged list when every individual merge succeeds, and raises the
unknown-strategy `ValueError` on the first failing merge. -/
theorem mergeAllGo_unknown (cn strat : String)
    (hs1 : (strat == "error_on_conflict") = false)
    (hs2 : (strat == "skip_on_conflict") = false) (l : List String) :
    ∀ (st : Store) (merged : List String) (skipped : List (String × String)),
    (∀ s', mergeSeq cn st l = some s' →
      mergeAllGo cn strat st merged skipped l = .ok ((merged ++ l, skipped), s')) ∧
    (mergeSeq cn st l = none →
      mergeAllGo cn strat st merged skipped l =
        .error (.valueError ("Unknown strategy: " ++ strat))) := by
  induction l with
  | nil =>
    intro st merged skipped
    constructor
    · intro s' h
      simp only [mergeSeq] at h
      injection h with h1
      subst h1
      simp [mergeAllGo]
    · intro h
      simp only [mergeSeq] at h
      exact Option.noConfusion h
  | cons a rest ih =>
    intro st merged skipped
    constructor
    · intro s' h
      simp only [mergeSeq] at h
      cases hm : merge_alias st cn a with
      | ok st2 =>
        rw [hm] at h
        simp only [mergeAllGo, hm]
        have h2 := (ih st2 (merged ++ [a]) skipped).1 s' h
        rw [h2]
        simp
      | error e =>
        rw [hm] at h
        exact Option.noConfusion h
    · intro h
      simp only [mergeSeq] at h
      cases hm : merge_alias st cn a with
      | ok st2 =>
        rw [hm] at h
        simp only [mergeAllGo, hm]
        exact (ih st2 (merged ++ [a]) skipped).2 h
      | error e =>
        simp only [mergeAllGo, hm]
        simp [hs1, hs2]

/-- C10: an unknown strategy string raises `ValueError` only lazily.  When
every per-alias `merge_alias` call succeeds (in particular when the canonical
has no aliases), the unknown strategy is silently accepted and the full
merged list with an empty skipped list is returned; the `ValueError` surfaces
exactly when some merge fails. -/
theorem C10_unknown_strategy_lazy (s : Store) (cn strat : String)
    (as : List String)
    (hs1 : strat ≠ "error_on_conflict") (hs2 : strat ≠ "skip_on_conflict")
    (hload : load_aliases s cn = .ok as) :
    (∀ s', mergeSeq cn s as = some s' →
      merge_all_aliases s cn strat = .ok ((as, []), s')) ∧
    (mergeSeq cn s as = none →
      merge_all_aliases s cn strat =
        .error (.valueError ("Unknown strategy: " ++ strat))) := by
  have hb1 : (strat == "error_on_conflict") = false := beq_eq_false_iff_ne.2 hs1
  have hb2 : (strat == "skip_on_conflict") = false := beq_eq_false_iff_ne.2 hs2
  constructor
  · intro s' h
    simp only [merge_all_aliases, hload]
    rw [(mergeAllGo_unknown cn strat hb1 hb2 as s [] []).1 s' h]
    simp
  · intro h
    simp only [merge_all_aliases, hload]
    exact (mergeAllGo_unknown cn strat hb1 hb2 as s [] []).2 h

/-- Witness for C10: on a store whose canonical "A" has the single alias "B"
with no entity row of its own, the bogus strategy is never noticed and the
call reports "B" merged, nothing skipped. -/
theorem C10_unknown_strategy_lazy_witness :
    merge_all_aliases oneAliasStore "A" "bogus" = .ok ((["B"], []), oneAliasStore) :=
  (C10_unknown_strategy_lazy oneAliasStore "A" "bogus" ["B"]
    (by decide) (by decide) rfl).1 oneAliasStore rfl

end GraphIndex
